import Mathlib

/-!
# check_rkn: the blocklist check service (`main.go`)

A shallow embedding of `loadDump`, `downloadDump` and `RknChecker` of `main.go`,
and the properties of the service proved over it.

Text is a list of Unicode scalar values (`Str`); byte lengths are measured in
UTF-8 (`byteLen`).  The range index (`github.com/zmap/go-iptree`) is a library
the program imports: the functions of `main.go` take its three operations as a
parameter (`IPTreeLib`).  `RangeIndex` further down is a model of that library
written from the specification of the service.
-/

namespace CheckRkn

/-! ## Text -/

/-- Text: a Go string whose bytes are valid UTF-8, as its characters. -/
abbrev Str := List Char

/-- Errors, carried as their message. -/
abbrev Err := String

/-- Length in bytes of the UTF-8 form of a text (Go `len(s)`). -/
def byteLen (s : Str) : Nat := (s.map Char.utf8Size).sum

/-- Go `strings.Split(s, sep)` for a one-character separator: the pieces between
the occurrences of `sep`; `n` occurrences give `n + 1` pieces, so the empty text
gives one empty piece. -/
def split (sep : Char) : Str → List Str
  | [] => [[]]
  | c :: cs =>
    if c = sep then [] :: split sep cs
    else
      match split sep cs with
      | [] => [[c]]
      | p :: ps => (c :: p) :: ps

/-- Go `unicode.IsSpace`: the white space characters of Unicode. -/
def isSpace (c : Char) : Bool :=
  let n := c.toNat
  (9 ≤ n && n ≤ 13) || n == 32 || n == 0x85 || n == 0xA0 || n == 0x1680 ||
  (0x2000 ≤ n && n ≤ 0x200A) || n == 0x2028 || n == 0x2029 || n == 0x202F ||
  n == 0x205F || n == 0x3000

/-- Go `strings.TrimSpace`: the text without its leading and trailing white space. -/
def trimSpace (s : Str) : Str :=
  ((s.dropWhile isSpace).reverse.dropWhile isSpace).reverse

/-! ## bufio.Scanner with the default line splitter -/

/-- The `dropCR` of `bufio.ScanLines`: a line without its one trailing carriage return. -/
def dropCR (l : Str) : Str :=
  if l.getLast? = some '\r' then l.dropLast else l

/-- The lines of a text as they stand between the newline characters; the last
piece, which no newline ends, is a line only when it is not empty. -/
def rawLines (data : Str) : List Str :=
  let ps := split '\n' data
  if ps.getLast? = some [] then ps.dropLast else ps

/-- What a run of `scanner.Scan()` to its end has produced: the tokens returned
by `scanner.Text()`, in order, and the value of `scanner.Err()`. -/
structure ScanResult where
  tokens : List Str
  err : Option Err
  deriving DecidableEq, Repr

/-- Error `bufio.ErrTooLong`. -/
def ErrTooLong : Err := "bufio.Scanner: token too long"

/-- The scanner over the raw lines that remain: a line of `maxTokenSize` bytes
or more cannot be held in the buffer together with what would end it, and the
scan stops there with `ErrTooLong`; at the end of the data the scan stops with
the error of the reader, if it had one. -/
def scanFrom (maxTokenSize : Nat) (readErr : Option Err) : List Str → ScanResult
  | [] => ⟨[], readErr⟩
  | l :: ls =>
    if maxTokenSize ≤ byteLen l then ⟨[], some ErrTooLong⟩
    else
      let r := scanFrom maxTokenSize readErr ls
      ⟨dropCR l :: r.tokens, r.err⟩

/-- An opened file as the reader delivers it: the bytes read before the end of
the file or before the read error `err`. -/
structure FileSrc where
  data : Str
  err : Option Err
  deriving DecidableEq, Repr

/-- The loop `for scanner.Scan() \x7b ... scanner.Text() ... \x7d` with
`scanner.Err()` after it, for a scanner whose buffer is limited to
`maxTokenSize` bytes. -/
def scanLines (maxTokenSize : Nat) (f : FileSrc) : ScanResult :=
  scanFrom maxTokenSize f.err (rawLines f.data)

/-! ## The range index library -/

/-- A value stored in the index (Go `interface\x7b\x7d`): an `int`, or a value
of another dynamic type. -/
inductive Value where
  | int (n : Int)
  | other
  deriving DecidableEq, Repr

/-- The three operations of `iptree.IPTree` that `main.go` calls.  `AddByString`
either gives the tree with the block added or rejects its argument with an
error, and a rejected call leaves the tree as it was; `GetByString` gives
`(v, ok, err)`: an error, or the value found (`some v`, ok) or nothing found. -/
structure IPTreeLib (T : Type) where
  New : T
  AddByString : T → Str → Value → Except Err T
  GetByString : T → Str → Except Err (Option Value)

/-- The statement `t.AddByString(s, v)` with its result not looked at, as
`loadDump` writes it. -/
def addIgnoringErr {T : Type} (lib : IPTreeLib T) (t : T) (s : Str) (v : Value) : T :=
  match lib.AddByString t s v with
  | .ok t1 => t1
  | .error _ => t

/-! ## loadDump -/

/-- The limit given to `scanner.Buffer(buf, 1024*1024)`. -/
def maxTokenSize : Nat := 1024 * 1024

/-- The inner loop of `loadDump`:
`for _, ip := range strings.Split(fields[0], "|") \x7b t.AddByString(strings.TrimSpace(ip), 1) \x7d`. -/
def addSubFields {T : Type} (lib : IPTreeLib T) (t : T) : List Str → T
  | [] => t
  | ip :: ips => addSubFields lib (addIgnoringErr lib t (trimSpace ip) (Value.int 1)) ips

/-- The body of the scanning loop of `loadDump` for one line. -/
def loadLine {T : Type} (lib : IPTreeLib T) (t : T) (line : Str) : T :=
  let fields := split ';' line
  if fields.length < 2 then t
  else addSubFields lib t (split '|' (fields.headD []))

/-- The scanning loop of `loadDump` over the tokens of the scanner. -/
def loadLines {T : Type} (lib : IPTreeLib T) (t : T) : List Str → T
  | [] => t
  | line :: rest => loadLines lib (loadLine lib t line) rest

/-- The function `loadDump` of `main.go`, from the result of `os.Open(path)`:
an error, or the opened file. -/
def loadDump {T : Type} (lib : IPTreeLib T) (file : Except Err FileSrc) : Except Err T :=
  match file with
  | .error e => .error e
  | .ok f =>
    let t := addIgnoringErr lib lib.New "0.0.0.0/0".toList (Value.int 0)
    let sc := scanLines maxTokenSize f
    let t := loadLines lib t sc.tokens
    match sc.err with
    | some e => .error e
    | none => .ok t

/-! ## The handler of /v1/rkn/check -/

/-- The Go type assertion `v.(int)` in its two-result form: the integer held
and `true`, or the zero value and `false` for a value of another type. -/
def assertInt : Value → Int × Bool
  | .int n => (n, true)
  | .other => (0, false)

/-- The map `res` of the handler (`map[string]bool`): keys with their values,
in the order in which the keys were first set. -/
abbrev ResMap := List (Str × Bool)

/-- The assignment `res[k] = v` on a Go map. -/
def mapSet : ResMap → Str → Bool → ResMap
  | [], k, v => [(k, v)]
  | (k1, v1) :: rest, k, v =>
    if k1 = k then (k1, v) :: rest else (k1, v1) :: mapSet rest k v

/-- The read `res[k]` with its presence flag. -/
def mapGet : ResMap → Str → Option Bool
  | [], _ => none
  | (k1, v1) :: rest, k => if k1 = k then some v1 else mapGet rest k

/-- What the handler wrote: the text of `http.Error`, or the encoded map. -/
inductive RespBody where
  | text (msg : Err)
  | json (m : ResMap)
  deriving DecidableEq, Repr

/-- The outcome of one request: the status code, what was written, and the
arguments of the calls of `db.GetByString` that were made, in order. -/
structure Response where
  status : Nat
  body : RespBody
  lookups : List Str
  deriving DecidableEq, Repr

/-- The loop `for _, ip := range ips` of the handler and the encoding of `res`
after it; `looked` are the lookups made so far. -/
def checkLoop {T : Type} (lib : IPTreeLib T) (db : T) : List Str → ResMap → List Str → Response
  | [], res, looked => ⟨200, .json res, looked⟩
  | ip :: ips, res, looked =>
    match lib.GetByString db ip with
    | .error e => ⟨500, .text e, looked ++ [ip]⟩
    | .ok found =>
      let res := mapSet res ip false
      match found with
      | none => checkLoop lib db ips res (looked ++ [ip])
      | some v =>
        if (assertInt v).1 = 1 then checkLoop lib db ips (mapSet res ip true) (looked ++ [ip])
        else checkLoop lib db ips res (looked ++ [ip])

/-- The handler of `/v1/rkn/check`, run on the snapshot `db` while it holds the
lock.  `decode` is `json.NewDecoder(r.Body).Decode(&ips)`: an error, or the
value of `ips` after it.  The encoder writes a map of strings to booleans, which
always marshals. -/
def checkHandler {T Body : Type} (lib : IPTreeLib T) (decode : Body → Except Err (List Str))
    (db : T) (body : Body) : Response :=
  match decode body with
  | .error e => ⟨400, .text e, []⟩
  | .ok ips =>
    if ips.length < 1 then ⟨400, .text "empty ip list", []⟩
    else checkLoop lib db ips [] []

/-! ## A model of the range index -/

/-- Modelled from the spec: the address-parsing primitive of the index library,
for one decimal number: digits only, at least one, no leading zero. -/
def parseDec (s : Str) : Option Nat :=
  if s ≠ [] ∧ s.all Char.isDigit ∧ (s.length = 1 ∨ s.head? ≠ some '0') then
    some (s.foldl (fun n c => 10 * n + (c.toNat - 48)) 0)
  else none

/-- Modelled from the spec: one octet of a dotted address, at most 255. -/
def parseOctet (s : Str) : Option Nat :=
  match parseDec s with
  | some n => if n ≤ 255 then some n else none
  | none => none

/-- Modelled from the spec: the address-parsing primitive of the index library,
for an IPv4 address `a.b.c.d`: its value as a 32-bit number. -/
def parseIPv4 (s : Str) : Option Nat :=
  match split '.' s with
  | [a, b, c, d] =>
    match parseOctet a, parseOctet b, parseOctet c, parseOctet d with
    | some a, some b, some c, some d => some (((a * 256 + b) * 256 + c) * 256 + d)
    | _, _, _, _ => none
  | _ => none

/-- A CIDR block: an address and the number of its leading bits that count. -/
structure Block where
  addr : Nat
  len : Nat
  deriving DecidableEq, Repr

/-- Modelled from the spec: the parser of the index library for a CIDR block
`a.b.c.d/n` with `n` at most 32. -/
def parseCIDR (s : Str) : Option Block :=
  match split '/' s with
  | [ip, n] =>
    match parseIPv4 ip, parseDec n with
    | some a, some l => if l ≤ 32 then some ⟨a, l⟩ else none
    | _, _ => none
  | _ => none

/-- Modelled from the spec: what the index library accepts for insertion: a
CIDR block, or a bare address without a length, treated as a /32 block. -/
def parseEntry (s : Str) : Option Block :=
  if '/' ∈ s then parseCIDR s
  else
    match parseIPv4 s with
    | some a => some ⟨a, 32⟩
    | none => none

/-- The key under which a block is stored: its leading bits and their number. -/
def blockKey (b : Block) : Nat × Nat := (b.addr / 2 ^ (32 - b.len), b.len)

/-- The addresses of a block, as a range: from its network address up to the
last address with the same leading bits. -/
def inBlock (b : Block) (x : Nat) : Prop :=
  b.addr / 2 ^ (32 - b.len) * 2 ^ (32 - b.len) ≤ x ∧
  x < b.addr / 2 ^ (32 - b.len) * 2 ^ (32 - b.len) + 2 ^ (32 - b.len)

instance (b : Block) (x : Nat) : Decidable (inBlock b x) := by
  unfold inBlock; infer_instance

/-- Modelled from the spec: the Range Index of the index library, which is not
part of `main.go`: entries keyed by binary prefix, the newest first. -/
abbrev RangeIndex := List ((Nat × Nat) × Value)

/-- The value stored for a key: that of the newest entry with the key. -/
def findKey : RangeIndex → Nat × Nat → Option Value
  | [], _ => none
  | (k1, v) :: rest, k => if k1 = k then some v else findKey rest k

/-- Modelled from the spec: the walk of a lookup from the length `len` down to
zero, until a stored prefix matches the leading bits of the address. -/
def lookupFrom (t : RangeIndex) (x : Nat) : Nat → Option Value
  | 0 => findKey t (x / 2 ^ 32, 0)
  | len + 1 =>
    match findKey t (x / 2 ^ (32 - (len + 1)), len + 1) with
    | some v => some v
    | none => lookupFrom t x len

/-- Modelled from the spec: `insert(prefix, flag)` of the Range Index, which is
not part of `main.go`: adds the block or overrides its flag, and rejects text
that is no block. -/
def RangeIndex.AddByString (t : RangeIndex) (s : Str) (v : Value) : Except Err RangeIndex :=
  match parseEntry s with
  | some b => .ok ((blockKey b, v) :: t)
  | none => .error "invalid CIDR address"

/-- Modelled from the spec: `lookup(address)` of the Range Index, which is not
part of `main.go`: the flag of the longest matching prefix, or `MalformedAddress`
for text that is no address. -/
def RangeIndex.GetByString (t : RangeIndex) (s : Str) : Except Err (Option Value) :=
  match parseIPv4 s with
  | some x => .ok (lookupFrom t x 32)
  | none => .error "invalid IP address"

/-- Modelled from the spec: the index library, which is not part of `main.go`,
as the Range Index of the specification. -/
def rangeIndexLib : IPTreeLib RangeIndex :=
  ⟨[], RangeIndex.AddByString, RangeIndex.GetByString⟩

/-- The request decoder used in the examples: the body is the decoded list. -/
def decodeList (body : List Str) : Except Err (List Str) := .ok body

/-! ## Files, the network and the process -/

/-- The files of the storage directory: the content under each path that exists. -/
abbrev FS := Str → Option Str

/-- The file system with `content` under `path`. -/
def FS.write (fs : FS) (path : Str) (content : Str) : FS :=
  fun p => if p = path then some content else fs p

/-- The file system without the file `path` (`os.Remove`). -/
def FS.remove (fs : FS) (path : Str) : FS :=
  fun p => if p = path then none else fs p

/-- An HTTP response as `downloadDump` reads it. -/
structure HttpResp where
  statusCode : Nat
  status : Err
  body : Str

/-- What the network and the operating system answer during one call of
`downloadDump`: the result of `client.Get`, and the results `os.Remove`,
`os.OpenFile` and `ld.Copy` give if they are called (`copyErr`: the copy fails
after it wrote that many characters). -/
structure Attempt where
  get : Except Err HttpResp
  removeErr : Option Err
  openErr : Option Err
  copyErr : Option (Nat × Err)

/-- The function `downloadDump` of `main.go` on the file system: the files after
the call and the error returned.  `os.Stat` succeeds exactly when the file
exists, so that the file is created anew by `os.OpenFile`.  The url and the
timeout act through the answer of the network. -/
def downloadDump (a : Attempt) (path : Str) (fs : FS) : FS × Option Err :=
  match a.get with
  | .error e => (fs, some e)
  | .ok resp =>
    let removed : Except Err FS :=
      match fs path with
      | some _ =>
        match a.removeErr with
        | some e => .error e
        | none => .ok (fs.remove path)
      | none => .ok fs
    match removed with
    | .error e => (fs, some e)
    | .ok fs1 =>
      match a.openErr with
      | some e => (fs1, some e)
      | none =>
        let fs2 := fs1.write path []
        if resp.statusCode ≠ 200 then (fs2, some resp.status)
        else
          match a.copyErr with
          | some (n, e) => (fs2.write path (resp.body.take n), some e)
          | none => (fs2.write path resp.body, none)

/-- What the operating system answers to `loadDump`: the result of `os.Open` on
an existing file, and a read error after that many characters. -/
structure LoadEnv where
  openErr : Option Err
  readErr : Option (Nat × Err)

/-- The call `os.Open(path)` and the reader it gives. -/
def osOpen (fs : FS) (ld : LoadEnv) (path : Str) : Except Err FileSrc :=
  match fs path with
  | none => .error "no such file or directory"
  | some content =>
    match ld.openErr with
    | some e => .error e
    | none =>
      match ld.readErr with
      | some (n, e) => .ok ⟨content.take n, some e⟩
      | none => .ok ⟨content, none⟩

/-- The call `os.Rename(src, dst)`: the files after it, or its error, which
leaves the files as they were. -/
def osRename (fs : FS) (renameErr : Option Err) (src dst : Str) : Except Err FS :=
  match fs src with
  | none => .error "no such file or directory"
  | some content =>
    match renameErr with
    | some e => .error e
    | none => .ok ((fs.remove src).write dst content)

/-- The options of the command line that `RknChecker` reads. -/
structure Config where
  dumpDir : Str
  dumpUrl : Str
  downloadRetryInterval : Nat
  dumpUpdateInterval : Nat
  dumpDownloadTimeout : Nat

/-- The path `path.Join(dumpDir, "dump.current")`; `join` is `path.Join`. -/
def currentDump (join : Str → Str → Str) (cfg : Config) : Str :=
  join cfg.dumpDir "dump.current".toList

/-- The path `path.Join(dumpDir, "dump.fresh")`; `join` is `path.Join`. -/
def freshDump (join : Str → Str → Str) (cfg : Config) : Str :=
  join cfg.dumpDir "dump.fresh".toList

/-- The effects of `RknChecker` that are observed, in the order in which the
statements that make them are executed. -/
inductive Event where
  | download (url path : Str) (timeout : Nat)
  | logged (msg : Err)
  | sleep (seconds : Nat)
  | load (path : Str)
  | lock
  | unlock
  | install
  | rename (src dst : Str)
  | fatal
  deriving DecidableEq, Repr

/-- The process before it serves: its files and the effects so far. -/
structure Proc where
  fs : FS
  trace : List Event

/-- The first loop of `RknChecker`, `for \x7b err := downloadDump(...); if err == nil \x7b break \x7d; ...; time.Sleep(...) \x7d`,
from its iteration `k` on; `env k` is what the network and the system answer to
the call of iteration `k`.  `fuel` bounds the number of iterations, and `none`
is a loop that has not ended within it. -/
def initLoop (join : Str → Str → Str) (cfg : Config) (env : Nat → Attempt) :
    Nat → Nat → Proc → Option Proc
  | 0, _, _ => none
  | fuel + 1, k, p =>
    let r := downloadDump (env k) (currentDump join cfg) p.fs
    let tr := p.trace ++ [Event.download cfg.dumpUrl (currentDump join cfg) cfg.dumpDownloadTimeout]
    match r.2 with
    | none => some ⟨r.1, tr⟩
    | some e => initLoop join cfg env fuel (k + 1)
        ⟨r.1, tr ++ [Event.logged e, Event.sleep cfg.downloadRetryInterval]⟩

/-- The files of `dump.current` before iteration `k` of the first loop. -/
def initFs (join : Str → Str → Str) (cfg : Config) (env : Nat → Attempt) (fs : FS) : Nat → FS
  | 0 => fs
  | k + 1 => (downloadDump (env k) (currentDump join cfg) (initFs join cfg env fs k)).1

/-- The outcome of the call of `downloadDump` in iteration `k` of the first loop. -/
def initOutcome (join : Str → Str → Str) (cfg : Config) (env : Nat → Attempt) (fs : FS)
    (k : Nat) : Option Err :=
  (downloadDump (env k) (currentDump join cfg) (initFs join cfg env fs k)).2

/-- How `RknChecker` leaves its start: `log.Fatalln` has ended the process, or
the snapshot `db` is served. -/
inductive Started (T : Type) where
  | fatal (p : Proc)
  | serving (db : T) (p : Proc)

/-- The start of `RknChecker`: the first loop, then `loadDump(currentDump)`. -/
def rknCheckerInit {T : Type} (join : Str → Str → Str) (lib : IPTreeLib T) (cfg : Config)
    (env : Nat → Attempt) (ld : LoadEnv) (fuel : Nat) (p : Proc) : Option (Started T) :=
  match initLoop join cfg env fuel 0 p with
  | none => none
  | some p1 =>
    let tr := p1.trace ++ [Event.load (currentDump join cfg)]
    match loadDump lib (osOpen p1.fs ld (currentDump join cfg)) with
    | .error e => some (.fatal ⟨p1.fs, tr ++ [Event.logged e, Event.fatal]⟩)
    | .ok db => some (.serving db ⟨p1.fs, tr⟩)

/-- The serving process: the snapshot `db` the handler reads, the files, and
the effects so far. -/
structure Service (T : Type) where
  db : T
  fs : FS
  trace : List Event

/-- What the network and the system answer during one cycle of the refresh. -/
structure CycleEnv where
  attempt : Attempt
  load : LoadEnv
  renameErr : Option Err

/-- One iteration of the loop `for range ticker` of the refresh goroutine. -/
def refreshCycle {T : Type} (join : Str → Str → Str) (lib : IPTreeLib T) (cfg : Config)
    (env : CycleEnv) (s : Service T) : Service T :=
  let tr := s.trace ++ [Event.logged "updating db",
    Event.download cfg.dumpUrl (freshDump join cfg) cfg.dumpDownloadTimeout]
  let r := downloadDump env.attempt (freshDump join cfg) s.fs
  match r.2 with
  | some e => ⟨s.db, r.1, tr ++ [Event.logged e]⟩
  | none =>
    let tr := tr ++ [Event.load (freshDump join cfg)]
    match loadDump lib (osOpen r.1 env.load (freshDump join cfg)) with
    | .error e => ⟨s.db, r.1, tr ++ [Event.logged e]⟩
    | .ok newDb =>
      let tr := tr ++ [Event.lock, Event.install,
        Event.rename (freshDump join cfg) (currentDump join cfg)]
      match osRename r.1 env.renameErr (freshDump join cfg) (currentDump join cfg) with
      | .error e => ⟨newDb, r.1, tr ++ [Event.logged e, Event.logged "db updated", Event.unlock]⟩
      | .ok fs2 => ⟨newDb, fs2, tr ++ [Event.logged "db updated", Event.unlock]⟩

/-- The cycle is a successful one: the fetch and the parse both succeed. -/
def cycleSucceeds {T : Type} (join : Str → Str → Str) (lib : IPTreeLib T) (cfg : Config)
    (env : CycleEnv) (s : Service T) : Prop :=
  (downloadDump env.attempt (freshDump join cfg) s.fs).2 = none ∧
  ∃ newDb, loadDump lib (osOpen (downloadDump env.attempt (freshDump join cfg) s.fs).1 env.load
    (freshDump join cfg)) = .ok newDb

/-- The effect `a` occurs in the trace, and the effect `b` occurs after its
first occurrence. -/
def occursBefore (a b : Event) (tr : List Event) : Prop :=
  a ∈ tr ∧ b ∈ tr.drop (tr.indexOf a + 1)

instance (a b : Event) (tr : List Event) : Decidable (occursBefore a b tr) := by
  unfold occursBefore; infer_instance

/-- The Go `path.Join` on a directory without a trailing slash and a file name:
the two joined by a slash. -/
def joinSimple (dir name : Str) : Str := dir ++ '/' :: name

/-- The flag the claim of the response gives for a lookup result: true exactly
when the lookup found an entry whose stored value is the integer 1. -/
def isBlocked (r : Except Err (Option Value)) : Bool :=
  match r with
  | .ok (some v) => decide (v = Value.int 1)
  | _ => false

/-- The keys of a response map. -/
def mapKeys (m : ResMap) : List Str := m.map Prod.fst

/-- The lines of a feed text, each without its line end. -/
def feedLines (data : Str) : List Str := (rawLines data).map dropCR

/-- The sub-fields a feed line contributes to the index, in the words of the
specification: none for a line with fewer than two fields separated by a
semicolon, and otherwise the sub-fields of the first field separated by a pipe,
each with its white space trimmed. -/
def lineEntries (line : Str) : List Str :=
  if 2 ≤ (split ';' line).length then
    (split '|' ((split ';' line).headD [])).map trimSpace
  else []

/-- The insertion of the reference index: the block is inserted with its flag,
and text the index rejects as malformed is ignored. -/
def insertOrIgnore {T : Type} (lib : IPTreeLib T) (v : Value) (t : T) (s : Str) : T :=
  match lib.AddByString t s v with
  | .ok t1 => t1
  | .error _ => t

/-- The reference index of a feed, in the words of the specification: the
default entry 0.0.0.0/0 with flag 0, then the entries of each line in order,
each inserted with flag 1. -/
def referenceIndex {T : Type} (lib : IPTreeLib T) (lines : List Str) : T :=
  (lines.flatMap lineEntries).foldl (insertOrIgnore lib (Value.int 1))
    (insertOrIgnore lib (Value.int 0) lib.New "0.0.0.0/0".toList)

/-- The process state with which the start of `RknChecker` has ended. -/
def Started.proc {T : Type} : Started T → Proc
  | .fatal p => p
  | .serving _ p => p

/-- The effects of the first loop for the errors of its failed iterations: for
each a call of `downloadDump` on `dump.current`, the log line and the wait of
the retry interval, and then the call that succeeds. -/
def retryTrace (join : Str → Str → Str) (cfg : Config) (errs : List Err) : List Event :=
  errs.flatMap (fun e =>
    [Event.download cfg.dumpUrl (currentDump join cfg) cfg.dumpDownloadTimeout,
     Event.logged e, Event.sleep cfg.downloadRetryInterval]) ++
  [Event.download cfg.dumpUrl (currentDump join cfg) cfg.dumpDownloadTimeout]

/-- The effect is a call of `downloadDump`. -/
def Event.isDownload : Event → Bool
  | .download _ _ _ => true
  | _ => false

/-- The effect is a call of `time.Sleep`. -/
def Event.isSleep : Event → Bool
  | .sleep _ => true
  | _ => false

/-- The effect is a call of `loadDump`. -/
def Event.isLoad : Event → Bool
  | .load _ => true
  | _ => false

/-- An attempt in which the network answers 200 with `body` and no call fails. -/
def goodAttempt (body : Str) : Attempt :=
  ⟨.ok ⟨200, "200 OK", body⟩, none, none, none⟩

/-- An attempt in which `client.Get` fails. -/
def badAttempt : Attempt :=
  ⟨.error "timeout", none, none, none⟩

/-- The options used in the examples. -/
def exampleConfig : Config :=
  ⟨"/db".toList, "https://example.org/dump.csv".toList, 30, 30, 30⟩

/-- A system that answers `loadDump` without an error. -/
def quietLoad : LoadEnv := ⟨none, none⟩

/-- The storage directory with no file in it. -/
def emptyFS : FS := fun _ => none

/-! ## The handler: lemmas -/

theorem assertInt_eq_one (v : Value) : (assertInt v).1 = 1 ↔ v = Value.int 1 := by
  cases v with
  | int n => simp [assertInt]
  | other => simp [assertInt]

theorem mapGet_mapSet (m : ResMap) (k k2 : Str) (v : Bool) :
    mapGet (mapSet m k v) k2 = if k = k2 then some v else mapGet m k2 := by
  induction m with
  | nil => simp [mapSet, mapGet]
  | cons hd tl ih =>
    obtain ⟨k1, v1⟩ := hd
    by_cases h1 : k1 = k
    · subst h1
      by_cases h2 : k1 = k2 <;> simp [mapSet, mapGet, h2]
    · by_cases h2 : k1 = k2
      · subst h2
        have h3 : ¬ k = k1 := fun h => h1 h.symm
        simp [mapSet, mapGet, h1, h3]
      · simp [mapSet, mapGet, h1, h2, ih]

theorem mapSet_mapSet (m : ResMap) (k : Str) (v w : Bool) :
    mapSet (mapSet m k v) k w = mapSet m k w := by
  induction m with
  | nil => simp [mapSet]
  | cons hd tl ih =>
    obtain ⟨k1, v1⟩ := hd
    by_cases h1 : k1 = k
    · simp [mapSet, h1]
    · simp [mapSet, h1, ih]

theorem mem_mapKeys_mapSet (m : ResMap) (k k2 : Str) (v : Bool) :
    k2 ∈ mapKeys (mapSet m k v) ↔ k2 = k ∨ k2 ∈ mapKeys m := by
  induction m with
  | nil => simp [mapSet, mapKeys]
  | cons hd tl ih =>
    obtain ⟨k1, v1⟩ := hd
    by_cases h1 : k1 = k
    · subst h1
      simp [mapSet, mapKeys]
    · simp only [mapKeys] at ih
      simp only [mapSet, h1, if_false, mapKeys, List.map_cons, List.mem_cons, ih]
      tauto

theorem nodup_mapKeys_mapSet (m : ResMap) (k : Str) (v : Bool)
    (h : (mapKeys m).Nodup) : (mapKeys (mapSet m k v)).Nodup := by
  induction m with
  | nil => simp [mapSet, mapKeys]
  | cons hd tl ih =>
    obtain ⟨k1, v1⟩ := hd
    by_cases h1 : k1 = k
    · subst h1
      simpa [mapSet, mapKeys] using h
    · have hnd : k1 ∉ mapKeys tl ∧ (mapKeys tl).Nodup := by
        simpa [mapKeys] using h
      have hmem := mem_mapKeys_mapSet tl k k1 v
      have ih2 := ih hnd.2
      simp only [mapSet, h1, if_false]
      show (k1 :: mapKeys (mapSet tl k v)).Nodup
      refine List.nodup_cons.mpr ⟨?_, ih2⟩
      rw [hmem]
      rintro (h | h)
      · exact h1 h
      · exact hnd.1 h

theorem length_mapSet_le (m : ResMap) (k : Str) (v : Bool) :
    (mapSet m k v).length ≤ m.length + 1 := by
  induction m with
  | nil => simp [mapSet]
  | cons hd tl ih =>
    obtain ⟨k1, v1⟩ := hd
    by_cases h1 : k1 = k
    · simp [mapSet, h1]
    · simp [mapSet, h1]; omega

/-- The loop of the handler stops with status 500 at the first address the
index rejects, whatever it has put in the map before. -/
theorem checkLoop_rejected {T : Type} (lib : IPTreeLib T) (db : T) (ips : List Str)
    (res : ResMap) (looked : List Str)
    (hbad : ∃ ip ∈ ips, ∃ e, lib.GetByString db ip = .error e) :
    (checkLoop lib db ips res looked).status = 500 ∧
    ∃ msg, (checkLoop lib db ips res looked).body = RespBody.text msg := by
  induction ips generalizing res looked with
  | nil => simp at hbad
  | cons ip rest ih =>
    cases hget : lib.GetByString db ip with
    | error e => simp [checkLoop, hget]
    | ok found =>
      have hrest : ∃ ip ∈ rest, ∃ e, lib.GetByString db ip = .error e := by
        obtain ⟨x, hx, e, he⟩ := hbad
        rcases List.mem_cons.mp hx with h | h
        · subst h; rw [hget] at he; cases he
        · exact ⟨x, h, e, he⟩
      cases found with
      | none => simpa [checkLoop, hget] using ih _ _ hrest
      | some v =>
        by_cases hv : (assertInt v).1 = 1
        · simpa [checkLoop, hget, hv] using ih _ _ hrest
        · simpa [checkLoop, hget, hv] using ih _ _ hrest

/-- The loop of the handler on addresses the index accepts: every address is
looked up, and the map is the one given with each address set to its flag. -/
theorem checkLoop_accepted {T : Type} (lib : IPTreeLib T) (db : T) (ips : List Str)
    (res : ResMap) (looked : List Str)
    (hok : ∀ ip ∈ ips, ∃ r, lib.GetByString db ip = .ok r) :
    checkLoop lib db ips res looked =
      ⟨200, RespBody.json (ips.foldl (fun m ip => mapSet m ip (isBlocked (lib.GetByString db ip))) res),
        looked ++ ips⟩ := by
  induction ips generalizing res looked with
  | nil => simp [checkLoop]
  | cons ip rest ih =>
    have hrest : ∀ x ∈ rest, ∃ r, lib.GetByString db x = .ok r :=
      fun x hx => hok x (List.mem_cons_of_mem _ hx)
    obtain ⟨r, hr⟩ := hok ip (List.mem_cons_self _ _)
    cases r with
    | none =>
      have hb : isBlocked (lib.GetByString db ip) = false := by rw [hr]; rfl
      simp only [List.foldl_cons]
      rw [hb]
      simp only [checkLoop, hr]
      rw [ih _ _ hrest]
      simp
    | some v =>
      by_cases hv : (assertInt v).1 = 1
      · have hv2 : v = Value.int 1 := (assertInt_eq_one v).mp hv
        have hb : isBlocked (lib.GetByString db ip) = true := by rw [hr]; simp [isBlocked, hv2]
        simp only [List.foldl_cons]
        rw [hb]
        simp only [checkLoop, hr, hv, if_true]
        rw [ih _ _ hrest, mapSet_mapSet]
        simp
      · have hv2 : ¬ v = Value.int 1 := fun h => hv ((assertInt_eq_one v).mpr h)
        have hb : isBlocked (lib.GetByString db ip) = false := by rw [hr]; simp [isBlocked, hv2]
        simp only [List.foldl_cons]
        rw [hb]
        simp only [checkLoop, hr, hv, if_false]
        rw [ih _ _ hrest]
        simp

theorem foldl_mapSet_keys (f : Str → Bool) (ips : List Str) (res : ResMap) (k : Str) :
    k ∈ mapKeys (ips.foldl (fun m ip => mapSet m ip (f ip)) res) ↔ k ∈ ips ∨ k ∈ mapKeys res := by
  induction ips generalizing res with
  | nil => simp
  | cons ip rest ih =>
    simp only [List.foldl_cons, ih, mem_mapKeys_mapSet, List.mem_cons]
    tauto

theorem foldl_mapSet_nodup (f : Str → Bool) (ips : List Str) (res : ResMap)
    (h : (mapKeys res).Nodup) :
    (mapKeys (ips.foldl (fun m ip => mapSet m ip (f ip)) res)).Nodup := by
  induction ips generalizing res with
  | nil => simpa using h
  | cons ip rest ih =>
    simp only [List.foldl_cons]
    exact ih _ (nodup_mapKeys_mapSet res ip (f ip) h)

theorem foldl_mapSet_length (f : Str → Bool) (ips : List Str) (res : ResMap) :
    (ips.foldl (fun m ip => mapSet m ip (f ip)) res).length ≤ res.length + ips.length := by
  induction ips generalizing res with
  | nil => simp
  | cons ip rest ih =>
    simp only [List.foldl_cons, List.length_cons]
    have h1 := ih (mapSet res ip (f ip))
    have h2 := length_mapSet_le res ip (f ip)
    omega

theorem foldl_mapSet_get (f : Str → Bool) (ips : List Str) (res : ResMap) (k : Str) :
    mapGet (ips.foldl (fun m ip => mapSet m ip (f ip)) res) k =
      if k ∈ ips then some (f k) else mapGet res k := by
  induction ips generalizing res with
  | nil => simp
  | cons ip rest ih =>
    simp only [List.foldl_cons, ih, mapGet_mapSet, List.mem_cons]
    by_cases h1 : k ∈ rest
    · simp [h1]
    · by_cases h2 : ip = k
      · subst h2; simp [h1]
      · have h3 : ¬ k = ip := fun h => h2 h.symm
        simp [h1, h2, h3]

/-! ## The handler: the claims -/

/-- C3: when the decoded batch is not empty and the index rejects at least one
of its elements as malformed, the handler answers with status 500 and writes the
error text only: no address to flag mapping is written, wherever the bad element
stands and whatever valid addresses precede it. -/
theorem malformed_address_fails_whole_batch {T Body : Type} (lib : IPTreeLib T)
    (decode : Body → Except Err (List Str)) (db : T) (body : Body) (ips : List Str)
    (hdec : decode body = .ok ips) (hne : ips ≠ [])
    (hbad : ∃ ip ∈ ips, ∃ e, lib.GetByString db ip = .error e) :
    (checkHandler lib decode db body).status = 500 ∧
    (∃ msg, (checkHandler lib decode db body).body = RespBody.text msg) ∧
    ∀ m, (checkHandler lib decode db body).body ≠ RespBody.json m := by
  have hlen : ¬ ips.length < 1 := by
    cases ips with
    | nil => exact absurd rfl hne
    | cons a l => simp
  have hh : checkHandler lib decode db body = checkLoop lib db ips [] [] := by
    simp [checkHandler, hdec, hlen]
  obtain ⟨h1, msg, h2⟩ := checkLoop_rejected lib db ips [] [] hbad
  rw [hh]
  refine ⟨h1, ⟨msg, h2⟩, ?_⟩
  intro m hm
  rw [h2] at hm
  cases hm

/-- Witness of C3: the batch 1.2.3.4, bogus, 5.6.7.8 on the index built from the
feed line of the specification. -/
theorem malformed_address_fails_whole_batch_witness :
    (checkHandler rangeIndexLib decodeList
      [((0, 0), Value.int 0)] ["1.2.3.4".toList, "bogus".toList, "5.6.7.8".toList]).status = 500 ∧
    (∃ msg, (checkHandler rangeIndexLib decodeList
      [((0, 0), Value.int 0)] ["1.2.3.4".toList, "bogus".toList, "5.6.7.8".toList]).body
        = RespBody.text msg) ∧
    ∀ m, (checkHandler rangeIndexLib decodeList
      [((0, 0), Value.int 0)] ["1.2.3.4".toList, "bogus".toList, "5.6.7.8".toList]).body
        ≠ RespBody.json m :=
  malformed_address_fails_whole_batch rangeIndexLib decodeList [((0, 0), Value.int 0)]
    ["1.2.3.4".toList, "bogus".toList, "5.6.7.8".toList]
    ["1.2.3.4".toList, "bogus".toList, "5.6.7.8".toList] rfl (by decide)
    ⟨"bogus".toList, by decide, "invalid IP address", rfl⟩

/-- C4: for a body the decoder rejects and for a body that decodes to the empty
list, the handler answers with status 400 and has made no lookup on the index. -/
theorem bad_request_without_lookup {T Body : Type} (lib : IPTreeLib T)
    (decode : Body → Except Err (List Str)) (db : T) (body : Body)
    (h : (∃ e, decode body = .error e) ∨ decode body = .ok []) :
    (checkHandler lib decode db body).status = 400 ∧
    (checkHandler lib decode db body).lookups = [] ∧
    ∃ msg, (checkHandler lib decode db body).body = RespBody.text msg := by
  rcases h with ⟨e, he⟩ | he
  · simp [checkHandler, he]
  · simp [checkHandler, he]

/-- Witness of C4: the empty list. -/
theorem bad_request_without_lookup_witness :
    (checkHandler rangeIndexLib decodeList [] []).status = 400 ∧
    (checkHandler rangeIndexLib decodeList [] []).lookups = [] ∧
    ∃ msg, (checkHandler rangeIndexLib decodeList [] []).body = RespBody.text msg :=
  bad_request_without_lookup rangeIndexLib decodeList [] [] (Or.inr rfl)

/-- C5: for a batch that is not empty and whose elements the index all accepts,
the handler answers with status 200 and a map whose keys are, without
repetition, exactly the strings of the batch (so it has at most as many entries
as the batch has elements), and the value of each key is true exactly when the
lookup of that string found an entry whose stored value is the integer 1. -/
theorem response_maps_each_input_to_flag {T Body : Type} (lib : IPTreeLib T)
    (decode : Body → Except Err (List Str)) (db : T) (body : Body) (ips : List Str)
    (hdec : decode body = .ok ips) (hne : ips ≠ [])
    (hok : ∀ ip ∈ ips, ∃ r, lib.GetByString db ip = .ok r) :
    ∃ m, checkHandler lib decode db body = ⟨200, RespBody.json m, ips⟩ ∧
      (mapKeys m).Nodup ∧ (∀ k, k ∈ mapKeys m ↔ k ∈ ips) ∧ m.length ≤ ips.length ∧
      ∀ k ∈ ips, ∃ b, mapGet m k = some b ∧
        (b = true ↔ lib.GetByString db k = .ok (some (Value.int 1))) := by
  have hlen : ¬ ips.length < 1 := by
    cases ips with
    | nil => exact absurd rfl hne
    | cons a l => simp
  have hh : checkHandler lib decode db body = checkLoop lib db ips [] [] := by
    simp [checkHandler, hdec, hlen]
  refine ⟨ips.foldl (fun m ip => mapSet m ip (isBlocked (lib.GetByString db ip))) [],
    ?_, ?_, ?_, ?_, ?_⟩
  · rw [hh, checkLoop_accepted lib db ips [] [] hok]; simp
  · exact foldl_mapSet_nodup _ ips [] (by simp [mapKeys])
  · intro k
    rw [foldl_mapSet_keys]
    simp [mapKeys]
  · simpa using foldl_mapSet_length (fun ip => isBlocked (lib.GetByString db ip)) ips []
  · intro k hk
    refine ⟨isBlocked (lib.GetByString db k), ?_, ?_⟩
    · rw [foldl_mapSet_get]; simp [hk]
    · cases hg : lib.GetByString db k with
      | error e => simp [isBlocked]
      | ok r =>
        cases r with
        | none => simp [isBlocked]
        | some v => simp [isBlocked]

/-- Witness of C5: the batch 1.2.3.4, 9.9.9.9, 1.2.3.4 on an index with the
block 1.2.3.0/24. -/
theorem response_maps_each_input_to_flag_witness :
    ∃ m, checkHandler rangeIndexLib decodeList [((66051, 24), Value.int 1), ((0, 0), Value.int 0)]
        ["1.2.3.4".toList, "9.9.9.9".toList, "1.2.3.4".toList]
        = ⟨200, RespBody.json m, ["1.2.3.4".toList, "9.9.9.9".toList, "1.2.3.4".toList]⟩ ∧
      (mapKeys m).Nodup ∧
      (∀ k, k ∈ mapKeys m ↔ k ∈ ["1.2.3.4".toList, "9.9.9.9".toList, "1.2.3.4".toList]) ∧
      m.length ≤ ["1.2.3.4".toList, "9.9.9.9".toList, "1.2.3.4".toList].length ∧
      ∀ k ∈ ["1.2.3.4".toList, "9.9.9.9".toList, "1.2.3.4".toList], ∃ b, mapGet m k = some b ∧
        (b = true ↔ rangeIndexLib.GetByString [((66051, 24), Value.int 1), ((0, 0), Value.int 0)] k
          = .ok (some (Value.int 1))) :=
  response_maps_each_input_to_flag rangeIndexLib decodeList
    [((66051, 24), Value.int 1), ((0, 0), Value.int 0)]
    ["1.2.3.4".toList, "9.9.9.9".toList, "1.2.3.4".toList]
    ["1.2.3.4".toList, "9.9.9.9".toList, "1.2.3.4".toList] rfl (by decide)
    (by
      intro ip hip
      simp only [List.mem_cons, List.mem_singleton, List.not_mem_nil, or_false] at hip
      rcases hip with h | h | h <;> subst h <;> exact ⟨_, rfl⟩)

/-! ## loadDump: lemmas -/

theorem split_ne_nil (sep : Char) (s : Str) : split sep s ≠ [] := by
  cases s with
  | nil => simp [split]
  | cons c cs =>
    by_cases h : c = sep
    · simp [split, h]
    · cases hs : split sep cs <;> simp [split, h, hs]

theorem split_of_not_mem (sep : Char) (s : Str) (h : sep ∉ s) : split sep s = [s] := by
  induction s with
  | nil => rfl
  | cons c cs ih =>
    have h1 : ¬ c = sep := fun e => h (by simp [e])
    have h2 : sep ∉ cs := fun e => h (List.mem_cons_of_mem _ e)
    simp [split, h1, ih h2]

theorem byteLen_replicate_a (n : Nat) : byteLen (List.replicate n 'a') = n := by
  induction n with
  | zero => rfl
  | succ n ih =>
    have h : Char.utf8Size 'a' = 1 := by decide
    simp only [byteLen, List.replicate_succ, List.map_cons, List.sum_cons, h] at ih ⊢
    omega

theorem scanFrom_ok (max : Nat) (ls : List Str) (h : ∀ l ∈ ls, byteLen l < max) :
    scanFrom max none ls = ⟨ls.map dropCR, none⟩ := by
  induction ls with
  | nil => rfl
  | cons l rest ih =>
    have h1 : ¬ max ≤ byteLen l := Nat.not_le.mpr (h l (List.mem_cons_self _ _))
    have h2 := ih (fun x hx => h x (List.mem_cons_of_mem _ hx))
    simp [scanFrom, h1, h2]

theorem scanFrom_err_none (max : Nat) (e : Option Err) (ls : List Str)
    (h : (scanFrom max e ls).err = none) : e = none ∧ ∀ l ∈ ls, byteLen l < max := by
  induction ls with
  | nil => simpa [scanFrom] using h
  | cons l rest ih =>
    by_cases h1 : max ≤ byteLen l
    · simp [scanFrom, h1] at h
    · simp only [scanFrom, h1, if_false] at h
      obtain ⟨he, hr⟩ := ih h
      refine ⟨he, ?_⟩
      intro x hx
      rcases List.mem_cons.mp hx with hx | hx
      · subst hx; exact Nat.not_le.mp h1
      · exact hr x hx

theorem addSubFields_eq_foldl {T : Type} (lib : IPTreeLib T) (t : T) (subs : List Str) :
    addSubFields lib t subs = (subs.map trimSpace).foldl (insertOrIgnore lib (Value.int 1)) t := by
  induction subs generalizing t with
  | nil => rfl
  | cons ip rest ih =>
    simp only [addSubFields, List.map_cons, List.foldl_cons, ih]
    rfl

theorem loadLine_eq_foldl {T : Type} (lib : IPTreeLib T) (t : T) (line : Str) :
    loadLine lib t line = (lineEntries line).foldl (insertOrIgnore lib (Value.int 1)) t := by
  by_cases h : (split ';' line).length < 2
  · have h2 : ¬ 2 ≤ (split ';' line).length := Nat.not_le.mpr h
    simp [loadLine, lineEntries, h, h2]
  · have h2 : 2 ≤ (split ';' line).length := Nat.not_lt.mp h
    simp only [loadLine, lineEntries, h, h2, if_true, if_false]
    exact addSubFields_eq_foldl lib t _

theorem loadLines_eq_foldl {T : Type} (lib : IPTreeLib T) (t : T) (lines : List Str) :
    loadLines lib t lines =
      (lines.flatMap lineEntries).foldl (insertOrIgnore lib (Value.int 1)) t := by
  induction lines generalizing t with
  | nil => rfl
  | cons line rest ih =>
    simp only [loadLines, List.flatMap_cons, List.foldl_append, ih, loadLine_eq_foldl]

/-- When `loadDump` returns an index, the file was opened and read without an
error, every line was shorter than the limit of the scanner, and the index is
the reference index of the lines. -/
theorem loadDump_ok_iff {T : Type} (lib : IPTreeLib T) (file : Except Err FileSrc) (t : T) :
    loadDump lib file = .ok t ↔
      ∃ data, file = .ok ⟨data, none⟩ ∧ (∀ l ∈ rawLines data, byteLen l < maxTokenSize) ∧
        t = referenceIndex lib (feedLines data) := by
  constructor
  · intro h
    cases file with
    | error e => simp [loadDump] at h
    | ok f =>
      obtain ⟨data, err⟩ := f
      simp only [loadDump] at h
      cases hsc : (scanLines maxTokenSize ⟨data, err⟩).err with
      | some e => rw [hsc] at h; cases h
      | none =>
        rw [hsc] at h
        obtain ⟨he, hl⟩ := scanFrom_err_none maxTokenSize err (rawLines data) hsc
        subst he
        refine ⟨data, rfl, hl, ?_⟩
        have htok : (scanLines maxTokenSize ⟨data, none⟩).tokens = feedLines data := by
          simp [scanLines, scanFrom_ok maxTokenSize _ hl, feedLines]
        rw [htok, loadLines_eq_foldl] at h
        injection h with h
        rw [← h]
        rfl
  · rintro ⟨data, rfl, hl, rfl⟩
    simp only [loadDump, scanLines, scanFrom_ok maxTokenSize _ hl, loadLines_eq_foldl]
    rfl

theorem loadDump_long_line {T : Type} (lib : IPTreeLib T) (n : Nat) (hn : maxTokenSize ≤ n) :
    loadDump lib (.ok ⟨List.replicate n 'a', none⟩) = .error ErrTooLong := by
  have hmem : '\n' ∉ List.replicate n 'a' := by
    intro h
    have := List.eq_of_mem_replicate h
    exact absurd this (by decide)
  have hsplit := split_of_not_mem '\n' _ hmem
  have hpos : 0 < n := Nat.lt_of_lt_of_le (by decide) hn
  have hlast : (List.replicate n 'a') ≠ [] := by
    intro h
    have := congrArg List.length h
    simp at this
    omega
  have hraw : rawLines (List.replicate n 'a') = [List.replicate n 'a'] := by
    simp only [rawLines, hsplit, List.getLast?_singleton, Option.some.injEq, hlast, if_false]
  have hlen : maxTokenSize ≤ byteLen (List.replicate n 'a') := by
    rw [byteLen_replicate_a]; exact hn
  simp only [loadDump, scanLines, hraw, scanFrom, hlen, if_true]

/-! ## loadDump: the claims -/

/-- C8: when `loadDump` succeeds on a feed, the index it returns is the
reference index of the lines of the feed: the default entry 0.0.0.0/0 with flag
0, then, for each line in order that has at least two fields, each trimmed
sub-field of the first field inserted with flag 1 unless the index rejects it.
A line with fewer than two fields contributes nothing: the index is the
reference index of the feed without that line. -/
theorem loadDump_eq_referenceIndex {T : Type} (lib : IPTreeLib T) (f : FileSrc) (t : T)
    (h : loadDump lib (.ok f) = .ok t) :
    t = referenceIndex lib (feedLines f.data) ∧
    ∀ before line after, feedLines f.data = before ++ line :: after →
      (split ';' line).length < 2 → t = referenceIndex lib (before ++ after) := by
  obtain ⟨data, hf, _, ht⟩ := (loadDump_ok_iff lib (.ok f) t).mp h
  injection hf with hf
  subst hf
  refine ⟨ht, ?_⟩
  intro before line after hsplit hlt
  have h2 : ¬ 2 ≤ (split ';' line).length := Nat.not_le.mpr hlt
  have h0 : lineEntries line = [] := by simp [lineEntries, h2]
  rw [ht, hsplit]
  simp [referenceIndex, List.flatMap_append, List.flatMap_cons, h0]

/-- Witness of C8: a feed with a line without a semicolon and a line with a
malformed sub-field between two blocks. -/
theorem loadDump_eq_referenceIndex_witness :
    [((84281096, 32), Value.int 1), ((66051, 24), Value.int 1), ((0, 0), Value.int 0)]
      = referenceIndex rangeIndexLib
        (feedLines (FileSrc.mk "skipped line\n1.2.3.0/24 | bogus |5.6.7.8;reason\n".toList none).data) ∧
    ∀ before line after,
      feedLines (FileSrc.mk "skipped line\n1.2.3.0/24 | bogus |5.6.7.8;reason\n".toList none).data
        = before ++ line :: after →
      (split ';' line).length < 2 →
      [((84281096, 32), Value.int 1), ((66051, 24), Value.int 1), ((0, 0), Value.int 0)]
        = referenceIndex rangeIndexLib (before ++ after) :=
  loadDump_eq_referenceIndex rangeIndexLib
    (FileSrc.mk "skipped line\n1.2.3.0/24 | bogus |5.6.7.8;reason\n".toList none)
    [((84281096, 32), Value.int 1), ((66051, 24), Value.int 1), ((0, 0), Value.int 0)] rfl

/-! ## The model of the range index: lemmas -/

theorem digit_toNat (c : Char) (h : c.isDigit = true) : 48 ≤ c.toNat ∧ c.toNat ≤ 57 := by
  simp only [Char.isDigit, Bool.and_eq_true, decide_eq_true_eq] at h
  obtain ⟨h1, h2⟩ := h
  have h1n : (48 : UInt32).toNat ≤ c.val.toNat := h1
  have h2n : c.val.toNat ≤ (57 : UInt32).toNat := h2
  exact ⟨h1n, h2n⟩

theorem digit_not_space (c : Char) (h : c.isDigit = true) : isSpace c = false := by
  have := digit_toNat c h
  simp only [isSpace]
  simp
  omega

theorem digit_ne_of_toNat (c d : Char) (h : c.isDigit = true)
    (hd : d.toNat < 48 ∨ 57 < d.toNat) : c ≠ d := by
  intro e
  subst e
  have := digit_toNat c h
  omega

theorem mem_split_or (sep : Char) (s : Str) (c : Char) (h : c ∈ s) :
    c = sep ∨ ∃ p ∈ split sep s, c ∈ p := by
  induction s with
  | nil => cases h
  | cons d ds ih =>
    by_cases hd : d = sep
    · rcases List.mem_cons.mp h with h1 | h1
      · exact Or.inl (h1.trans hd)
      · rcases ih h1 with h2 | ⟨p, hp, hc⟩
        · exact Or.inl h2
        · exact Or.inr ⟨p, by simp [split, hd, hp], hc⟩
    · cases hs : split sep ds with
      | nil => exact absurd hs (split_ne_nil sep ds)
      | cons q qs =>
        rcases List.mem_cons.mp h with h1 | h1
        · exact Or.inr ⟨d :: q, by simp [split, hd, hs], by simp [h1]⟩
        · rcases ih h1 with h2 | ⟨p, hp, hc⟩
          · exact Or.inl h2
          · rw [hs] at hp
            rcases List.mem_cons.mp hp with hp1 | hp1
            · subst hp1
              exact Or.inr ⟨d :: p, by simp [split, hd, hs], List.mem_cons_of_mem _ hc⟩
            · exact Or.inr ⟨p, by simp [split, hd, hs, hp1], hc⟩

theorem parseDec_digits (s : Str) (n : Nat) (h : parseDec s = some n) :
    ∀ c ∈ s, c.isDigit = true := by
  unfold parseDec at h
  split_ifs at h with hc
  exact fun c hcs => List.all_eq_true.mp hc.2.1 c hcs

theorem parseOctet_inv (s : Str) (n : Nat) (h : parseOctet s = some n) :
    n ≤ 255 ∧ ∀ c ∈ s, c.isDigit = true := by
  unfold parseOctet at h
  split at h
  · rename_i m hm
    split_ifs at h with hle
    injection h with h
    subst h
    exact ⟨hle, parseDec_digits s m hm⟩
  · cases h

theorem parseIPv4_inv (s : Str) (x : Nat) (h : parseIPv4 s = some x) :
    x < 2 ^ 32 ∧ ∀ c ∈ s, c.isDigit = true ∨ c = '.' := by
  unfold parseIPv4 at h
  split at h
  · rename_i a b c d hsp
    split at h
    · rename_i na nb nc nd ha hb hc hd
      injection h with h
      obtain ⟨la, da⟩ := parseOctet_inv a na ha
      obtain ⟨lb, db⟩ := parseOctet_inv b nb hb
      obtain ⟨lc, dc⟩ := parseOctet_inv c nc hc
      obtain ⟨ld, dd⟩ := parseOctet_inv d nd hd
      refine ⟨by omega, ?_⟩
      intro ch hch
      rcases mem_split_or '.' s ch hch with h1 | ⟨p, hp, hcp⟩
      · exact Or.inr h1
      · rw [hsp] at hp
        simp only [List.mem_cons, List.mem_singleton, List.not_mem_nil, or_false] at hp
        rcases hp with hp | hp | hp | hp <;> subst hp
        · exact Or.inl (da ch hcp)
        · exact Or.inl (db ch hcp)
        · exact Or.inl (dc ch hcp)
        · exact Or.inl (dd ch hcp)
    · cases h
  · cases h

theorem parseCIDR_inv (s : Str) (b : Block) (h : parseCIDR s = some b) :
    b.len ≤ 32 ∧ '/' ∈ s ∧ ∀ c ∈ s, c.isDigit = true ∨ c = '.' ∨ c = '/' := by
  unfold parseCIDR at h
  split at h
  · rename_i ip n hsp
    split at h
    · rename_i a l ha hl
      split_ifs at h with hle
      injection h with h
      subst h
      refine ⟨hle, ?_, ?_⟩
      · by_contra hno
        rw [split_of_not_mem '/' s hno] at hsp
        simp at hsp
      · intro ch hch
        rcases mem_split_or '/' s ch hch with h1 | ⟨p, hp, hcp⟩
        · exact Or.inr (Or.inr h1)
        · rw [hsp] at hp
          simp only [List.mem_cons, List.mem_singleton, List.not_mem_nil, or_false] at hp
          rcases hp with hp | hp <;> subst hp
          · rcases (parseIPv4_inv _ a ha).2 ch hcp with h2 | h2
            · exact Or.inl h2
            · exact Or.inr (Or.inl h2)
          · exact Or.inl (parseDec_digits _ l hl ch hcp)
    · cases h
  · cases h

theorem parseEntry_len (s : Str) (b : Block) (h : parseEntry s = some b) : b.len ≤ 32 := by
  unfold parseEntry at h
  split_ifs at h with hs
  · exact (parseCIDR_inv s b h).1
  · split at h
    · injection h with h; subst h; exact Nat.le_refl _
    · cases h

theorem dropWhile_append_all (p : Char → Bool) (ws l : Str) (h : ∀ c ∈ ws, p c = true) :
    (ws ++ l).dropWhile p = l.dropWhile p := by
  induction ws with
  | nil => rfl
  | cons w ws ih =>
    have hw : p w = true := h w (List.mem_cons_self _ _)
    simp only [List.cons_append, List.dropWhile_cons, hw, if_true]
    exact ih (fun c hc => h c (List.mem_cons_of_mem _ hc))

theorem dropWhile_none (p : Char → Bool) (l : Str) (h : ∀ c ∈ l, p c = false) :
    l.dropWhile p = l := by
  cases l with
  | nil => rfl
  | cons c cs =>
    have hc : p c = false := h c (List.mem_cons_self _ _)
    simp [List.dropWhile_cons, hc]

/-- Trimming gives back a text without white space from between white space. -/
theorem trimSpace_surrounded (ws1 s ws2 : Str) (h1 : ∀ c ∈ ws1, isSpace c = true)
    (h2 : ∀ c ∈ ws2, isSpace c = true) (hs : ∀ c ∈ s, isSpace c = false) :
    trimSpace (ws1 ++ s ++ ws2) = s := by
  unfold trimSpace
  rw [List.append_assoc, dropWhile_append_all isSpace ws1 _ h1]
  cases s with
  | nil =>
    have : (([] : Str) ++ ws2).dropWhile isSpace = [] := by
      have := dropWhile_append_all isSpace ws2 [] h2
      simpa using this
    rw [this]
    rfl
  | cons c cs =>
    have hc : isSpace c = false := hs c (List.mem_cons_self _ _)
    have e1 : ((c :: cs) ++ ws2).dropWhile isSpace = (c :: cs) ++ ws2 := by
      simp [List.dropWhile_cons, hc]
    rw [e1, List.reverse_append,
      dropWhile_append_all isSpace ws2.reverse _ (fun x hx => h2 x (List.mem_reverse.mp hx)),
      dropWhile_none isSpace _ (fun x hx => hs x (List.mem_reverse.mp hx)), List.reverse_reverse]

theorem trimSpace_of_no_space (s : Str) (hs : ∀ c ∈ s, isSpace c = false) : trimSpace s = s := by
  have := trimSpace_surrounded [] s [] (by simp) (by simp) hs
  simpa using this

theorem entryChar_not_space (c : Char) (h : c.isDigit = true ∨ c = '.' ∨ c = '/') :
    isSpace c = false := by
  rcases h with h | h | h
  · exact digit_not_space c h
  · subst h; decide
  · subst h; decide

theorem findKey_append (t1 t2 : RangeIndex) (k : Nat × Nat) :
    findKey (t1 ++ t2) k =
      match findKey t1 k with
      | some v => some v
      | none => findKey t2 k := by
  induction t1 with
  | nil => rfl
  | cons e rest ih =>
    obtain ⟨k1, v1⟩ := e
    by_cases hk : k1 = k
    · simp [findKey, hk]
    · simp [findKey, hk, ih]

theorem findKey_map (bs : List Block) (v : Value) (k : Nat × Nat) :
    findKey (bs.map (fun b => (blockKey b, v))) k =
      if k ∈ bs.map blockKey then some v else none := by
  induction bs with
  | nil => rfl
  | cons b rest ih =>
    by_cases hk : blockKey b = k
    · simp [findKey, hk]
    · have hk2 : ¬ k = blockKey b := fun e => hk e.symm
      simp only [List.map_cons, findKey, hk, if_false, ih, List.mem_cons, hk2, false_or]

/-- The index after the insertions of `loadDump`: the accepted blocks, the
newest first, over the index it started from. -/
theorem foldl_insert_rangeIndex (v : Value) (es : List Str) (t0 : RangeIndex) :
    es.foldl (insertOrIgnore rangeIndexLib v) t0 =
      ((es.filterMap parseEntry).reverse.map (fun b => (blockKey b, v))) ++ t0 := by
  induction es generalizing t0 with
  | nil => rfl
  | cons e rest ih =>
    simp only [List.foldl_cons, ih]
    cases hp : parseEntry e with
    | none =>
      simp [insertOrIgnore, rangeIndexLib, RangeIndex.AddByString, hp, List.filterMap_cons]
    | some b =>
      simp [insertOrIgnore, rangeIndexLib, RangeIndex.AddByString, hp, List.filterMap_cons]

theorem inBlock_iff (b : Block) (x : Nat) :
    inBlock b x ↔ x / 2 ^ (32 - b.len) = b.addr / 2 ^ (32 - b.len) := by
  have hpos : 0 < 2 ^ (32 - b.len) := Nat.two_pow_pos _
  unfold inBlock
  generalize 2 ^ (32 - b.len) = m at hpos
  generalize b.addr / m = q
  constructor
  · rintro ⟨h1, h2⟩
    apply Nat.le_antisymm
    · have : x < (q + 1) * m := by rw [Nat.add_mul]; simpa using h2
      exact Nat.lt_succ_iff.mp ((Nat.div_lt_iff_lt_mul hpos).mpr this)
    · exact (Nat.le_div_iff_mul_le hpos).mpr h1
  · intro h
    subst h
    constructor
    · exact Nat.div_mul_le_self x m
    · exact Nat.lt_div_mul_add hpos

/-- The walk of a lookup over the index of accepted blocks above the default
entry: the flag is 1 exactly when a block of some length up to `n` has the
leading bits of the address. -/
theorem lookupFrom_loaded (bs : List Block) (x : Nat) (hx : x < 2 ^ 32) (n : Nat) :
    ∃ flag : Bool,
      lookupFrom (bs.map (fun b => (blockKey b, Value.int 1)) ++ [((0, 0), Value.int 0)]) x n
        = some (Value.int (if flag then 1 else 0)) ∧
      (flag = true ↔ ∃ l, l ≤ n ∧ (x / 2 ^ (32 - l), l) ∈ bs.map blockKey) := by
  induction n with
  | zero =>
    have h0 : x / 2 ^ 32 = 0 := Nat.div_eq_of_lt hx
    by_cases hk : ((0, 0) : Nat × Nat) ∈ bs.map blockKey
    · refine ⟨true, ?_, ?_⟩
      · simp only [lookupFrom, h0, findKey_append, findKey_map, hk, if_true]
      · simp only [true_iff]
        have e : x / 2 ^ (32 - 0) = 0 := h0
        exact ⟨0, Nat.le_refl _, by rw [e]; exact hk⟩
    · refine ⟨false, ?_, ?_⟩
      · simp only [lookupFrom, h0, findKey_append, findKey_map, hk, if_false, findKey]
        simp
      · simp only [Bool.false_eq_true, false_iff]
        rintro ⟨l, hl, hm⟩
        have : l = 0 := Nat.le_zero.mp hl
        subst this
        have e : x / 2 ^ (32 - 0) = 0 := h0
        rw [e] at hm
        exact hk hm
  | succ n ih =>
    obtain ⟨flag, hf, hiff⟩ := ih
    by_cases hk : (x / 2 ^ (32 - (n + 1)), n + 1) ∈ bs.map blockKey
    · refine ⟨true, ?_, ?_⟩
      · simp only [lookupFrom, findKey_append, findKey_map, hk, if_true]
      · simp only [true_iff]
        exact ⟨n + 1, Nat.le_refl _, hk⟩
    · refine ⟨flag, ?_, ?_⟩
      · have hne : ¬ (((0, 0) : Nat × Nat) = (x / 2 ^ (32 - (n + 1)), n + 1)) := by
          intro e
          have := congrArg Prod.snd e
          simp at this
        simp only [lookupFrom, findKey_append, findKey_map, hk, if_false, findKey, hne]
        exact hf
      · rw [hiff]
        constructor
        · rintro ⟨l, hl, hm⟩
          exact ⟨l, Nat.le_succ_of_le hl, hm⟩
        · rintro ⟨l, hl, hm⟩
          rcases Nat.lt_or_ge l (n + 1) with h | h
          · exact ⟨l, Nat.lt_succ_iff.mp h, hm⟩
          · have : l = n + 1 := Nat.le_antisymm hl h
            subst this
            exact absurd hm hk

theorem mem_keys_iff_inBlock (bs : List Block) (x : Nat) (hlen : ∀ b ∈ bs, b.len ≤ 32) :
    (∃ l, l ≤ 32 ∧ (x / 2 ^ (32 - l), l) ∈ bs.map blockKey) ↔ ∃ b ∈ bs, inBlock b x := by
  constructor
  · rintro ⟨l, _, hm⟩
    obtain ⟨b, hb, hkey⟩ := List.mem_map.mp hm
    refine ⟨b, hb, (inBlock_iff b x).mpr ?_⟩
    simp only [blockKey, Prod.mk.injEq] at hkey
    obtain ⟨h1, h2⟩ := hkey
    subst h2
    exact h1.symm
  · rintro ⟨b, hb, hin⟩
    refine ⟨b.len, hlen b hb, List.mem_map.mpr ⟨b, hb, ?_⟩⟩
    simp only [blockKey, Prod.mk.injEq, and_true]
    exact ((inBlock_iff b x).mp hin).symm

/-- The lookup of a well-formed address in the index loaded from the lines of a
feed: it finds the flag 1 exactly when the address lies in a block that an
entry of a line stands for, and the flag 0 of the default entry otherwise. -/
theorem getByString_loaded (lines : List Str) (x : Str) (xv : Nat)
    (hx : parseIPv4 x = some xv) :
    ∃ flag : Bool,
      rangeIndexLib.GetByString (referenceIndex rangeIndexLib lines) x
        = .ok (some (Value.int (if flag then 1 else 0))) ∧
      (flag = true ↔
        ∃ e ∈ lines.flatMap lineEntries, ∃ b, parseEntry e = some b ∧ inBlock b xv) := by
  have hlt := (parseIPv4_inv x xv hx).1
  have ht : referenceIndex rangeIndexLib lines =
      ((lines.flatMap lineEntries).filterMap parseEntry).reverse.map
        (fun b => (blockKey b, Value.int 1)) ++ [((0, 0), Value.int 0)] := by
    unfold referenceIndex
    rw [foldl_insert_rangeIndex]
    rfl
  obtain ⟨flag, hf, hiff⟩ := lookupFrom_loaded
    ((lines.flatMap lineEntries).filterMap parseEntry).reverse xv hlt 32
  refine ⟨flag, ?_, ?_⟩
  · show RangeIndex.GetByString _ x = _
    simp only [RangeIndex.GetByString, hx, ht, hf]
  · rw [hiff, mem_keys_iff_inBlock]
    · constructor
      · rintro ⟨b, hb, hin⟩
        obtain ⟨e, he, hp⟩ := List.mem_filterMap.mp (List.mem_reverse.mp hb)
        exact ⟨e, he, b, hp, hin⟩
      · rintro ⟨e, he, b, hp, hin⟩
        exact ⟨b, List.mem_reverse.mpr (List.mem_filterMap.mpr ⟨e, he, hp⟩), hin⟩
    · intro b hb
      obtain ⟨e, _, hp⟩ := List.mem_filterMap.mp (List.mem_reverse.mp hb)
      exact parseEntry_len e b hp

theorem parseEntry_of_cidr (s : Str) (b : Block) (h : parseCIDR s = some b) :
    parseEntry (trimSpace s) = some b := by
  obtain ⟨_, hsl, hch⟩ := parseCIDR_inv s b h
  rw [trimSpace_of_no_space s (fun c hc => entryChar_not_space c (hch c hc))]
  simp [parseEntry, hsl, h]

theorem parseEntry_of_address (s : Str) (x : Nat) (h : parseIPv4 s = some x) :
    parseEntry s = some ⟨x, 32⟩ := by
  have hno : '/' ∉ s := by
    intro hm
    rcases (parseIPv4_inv s x h).2 _ hm with h1 | h1
    · exact absurd h1 (by decide)
    · exact absurd h1 (by decide)
  simp [parseEntry, hno, h]

theorem mem_lineEntries (line e : Str) :
    e ∈ lineEntries line ↔ 2 ≤ (split ';' line).length ∧
      ∃ sub ∈ split '|' ((split ';' line).headD []), trimSpace sub = e := by
  unfold lineEntries
  by_cases h : 2 ≤ (split ';' line).length
  · simp [h]
  · simp [h]

theorem isBlocked_flag (flag : Bool) :
    isBlocked (.ok (some (Value.int (if flag then 1 else 0)))) = flag := by
  cases flag <;> simp [isBlocked]

theorem checkHandler_accepted {T : Type} (lib : IPTreeLib T) (db : T) (ips : List Str)
    (hne : ips ≠ []) (hok : ∀ ip ∈ ips, ∃ r, lib.GetByString db ip = .ok r) :
    checkHandler lib decodeList db ips =
      ⟨200, RespBody.json (ips.foldl (fun m ip => mapSet m ip (isBlocked (lib.GetByString db ip))) []),
        ips⟩ := by
  have hlen : ¬ ips.length < 1 := by
    cases ips with
    | nil => exact absurd rfl hne
    | cons a l => simp
  simp only [checkHandler, decodeList, hlen, if_false]
  rw [checkLoop_accepted lib db ips [] [] hok]
  simp

/-- The handler on the index loaded from the lines of a feed, for a batch of
well-formed addresses: every address is mapped, to true exactly when it lies in
a block that an entry of a line stands for. -/
theorem checkHandler_loaded (lines : List Str) (ips : List Str) (hne : ips ≠ [])
    (hips : ∀ ip ∈ ips, (parseIPv4 ip).isSome = true) :
    ∃ m, checkHandler rangeIndexLib decodeList (referenceIndex rangeIndexLib lines) ips
        = ⟨200, RespBody.json m, ips⟩ ∧
      ∀ x ∈ ips, ∀ xv, parseIPv4 x = some xv →
        ∃ flag, mapGet m x = some flag ∧
          (flag = true ↔
            ∃ e ∈ lines.flatMap lineEntries, ∃ b, parseEntry e = some b ∧ inBlock b xv) := by
  have hok : ∀ ip ∈ ips, ∃ r,
      rangeIndexLib.GetByString (referenceIndex rangeIndexLib lines) ip = .ok r := by
    intro ip hip
    obtain ⟨v, hv⟩ := Option.isSome_iff_exists.mp (hips ip hip)
    obtain ⟨flag, hf, _⟩ := getByString_loaded lines ip v hv
    exact ⟨_, hf⟩
  refine ⟨_, checkHandler_accepted rangeIndexLib _ ips hne hok, ?_⟩
  intro x hx xv hxv
  obtain ⟨flag, hf, hiff⟩ := getByString_loaded lines x xv hxv
  refine ⟨flag, ?_, hiff⟩
  rw [foldl_mapSet_get]
  simp only [hx, if_true, hf, isBlocked_flag]

/-! ## The check against the loaded feed: the claims -/

/-- C1: for a feed in which every sub-field of the first field of every line is
a well-formed CIDR block a.b.c.d/n, on the index `loadDump` builds from it, the
handler maps every well-formed IPv4 address of a batch to true if and only if
the address lies inside a block listed in the first field of some line that has
at least two fields; an address no such block covers is mapped to false. -/
theorem check_true_iff_in_listed_block (feed : Str) (t : RangeIndex) (ips : List Str)
    (hwf : ∀ line ∈ feedLines feed, ∀ sub ∈ split '|' ((split ';' line).headD []),
      (parseCIDR sub).isSome = true)
    (hload : loadDump rangeIndexLib (.ok ⟨feed, none⟩) = .ok t)
    (hne : ips ≠ []) (hips : ∀ ip ∈ ips, (parseIPv4 ip).isSome = true) :
    ∃ m, checkHandler rangeIndexLib decodeList t ips = ⟨200, RespBody.json m, ips⟩ ∧
      ∀ x ∈ ips, ∀ xv, parseIPv4 x = some xv →
        ∃ flag, mapGet m x = some flag ∧
          (flag = true ↔
            ∃ line ∈ feedLines feed, 2 ≤ (split ';' line).length ∧
              ∃ sub ∈ split '|' ((split ';' line).headD []),
                ∃ b, parseCIDR sub = some b ∧ inBlock b xv) := by
  obtain ⟨data, hf, _, ht⟩ := (loadDump_ok_iff rangeIndexLib _ t).mp hload
  injection hf with hf
  injection hf with hf
  subst hf
  subst ht
  obtain ⟨m, hm, hall⟩ := checkHandler_loaded (feedLines feed) ips hne hips
  refine ⟨m, hm, ?_⟩
  intro x hx xv hxv
  obtain ⟨flag, hg, hiff⟩ := hall x hx xv hxv
  refine ⟨flag, hg, hiff.trans ?_⟩
  constructor
  · rintro ⟨e, he, b, hp, hin⟩
    obtain ⟨line, hline, hel⟩ := List.mem_flatMap.mp he
    obtain ⟨h2, sub, hsub, htrim⟩ := (mem_lineEntries line e).mp hel
    obtain ⟨b0, hb0⟩ := Option.isSome_iff_exists.mp (hwf line hline sub hsub)
    have hp0 := parseEntry_of_cidr sub b0 hb0
    rw [htrim, hp] at hp0
    injection hp0 with hp0
    subst hp0
    exact ⟨line, hline, h2, sub, hsub, b, hb0, hin⟩
  · rintro ⟨line, hline, h2, sub, hsub, b, hb, hin⟩
    exact ⟨trimSpace sub, List.mem_flatMap.mpr ⟨line, hline,
      (mem_lineEntries line _).mpr ⟨h2, sub, hsub, rfl⟩⟩, b, parseEntry_of_cidr sub b hb, hin⟩

/-- Witness of C1: the feed line `1.2.3.0/24;reason` gives 1.2.3.4 -> true and
9.9.9.9 -> false. -/
theorem check_true_iff_in_listed_block_witness :
    checkHandler rangeIndexLib decodeList [((66051, 24), Value.int 1), ((0, 0), Value.int 0)]
        ["1.2.3.4".toList, "9.9.9.9".toList]
      = ⟨200, RespBody.json [("1.2.3.4".toList, true), ("9.9.9.9".toList, false)],
          ["1.2.3.4".toList, "9.9.9.9".toList]⟩ ∧
    ∃ m, checkHandler rangeIndexLib decodeList [((66051, 24), Value.int 1), ((0, 0), Value.int 0)]
        ["1.2.3.4".toList, "9.9.9.9".toList]
        = ⟨200, RespBody.json m, ["1.2.3.4".toList, "9.9.9.9".toList]⟩ ∧
      ∀ x ∈ ["1.2.3.4".toList, "9.9.9.9".toList], ∀ xv, parseIPv4 x = some xv →
        ∃ flag, mapGet m x = some flag ∧
          (flag = true ↔
            ∃ line ∈ feedLines "1.2.3.0/24;reason".toList, 2 ≤ (split ';' line).length ∧
              ∃ sub ∈ split '|' ((split ';' line).headD []),
                ∃ b, parseCIDR sub = some b ∧ inBlock b xv) :=
  ⟨by decide, check_true_iff_in_listed_block "1.2.3.0/24;reason".toList
    [((66051, 24), Value.int 1), ((0, 0), Value.int 0)] ["1.2.3.4".toList, "9.9.9.9".toList]
    (by decide) rfl (by decide) (by decide)⟩

theorem split_append_sep (sep : Char) (p r : Str) (h : sep ∉ p) :
    split sep (p ++ sep :: r) = p :: split sep r := by
  induction p with
  | nil => simp [split]
  | cons c cs ih =>
    have h1 : ¬ c = sep := fun e => h (by simp [e])
    have h2 : sep ∉ cs := fun e => h (List.mem_cons_of_mem _ e)
    simp [split, h1, ih h2]

theorem dropCR_append_sep (p r : Str) : ∃ r2, dropCR (p ++ ';' :: r) = p ++ ';' :: r2 := by
  unfold dropCR
  split_ifs with h
  · cases r with
    | nil =>
      rw [List.getLast?_append_cons, List.getLast?_singleton] at h
      exact absurd h (by decide)
    | cons c cs =>
      refine ⟨(c :: cs).dropLast, ?_⟩
      rw [List.dropLast_append_of_ne_nil _ (by simp), List.dropLast_cons_of_ne_nil (by simp)]
  · exact ⟨r, rfl⟩

theorem space_ne (c d : Char) (hc : isSpace c = true) (hd : isSpace d = false) : c ≠ d := by
  intro e
  subst e
  rw [hc] at hd
  cases hd

theorem rawLines_single (line eol : Str) (hnl : '\n' ∉ line) (hne : line ≠ [])
    (heol : eol = [] ∨ eol = ['\n']) : rawLines (line ++ eol) = [line] := by
  rcases heol with h | h
  · subst h
    simp only [List.append_nil, rawLines, split_of_not_mem '\n' line hnl,
      List.getLast?_singleton, Option.some.injEq, hne, if_false]
  · subst h
    simp [rawLines, split_append_sep '\n' line [] hnl, split]

/-- C2: for a feed of one line whose first field is a well-formed IPv4 address
without a length, with white space around it or not, and which has a second
field, `loadDump` builds an index on which the handler maps that address to
true and every other IPv4 address to false: the bare address is a /32 block. -/
theorem bare_address_is_single_host (a : Str) (av : Nat) (ws1 ws2 rest eol : Str)
    (ips : List Str) (ha : parseIPv4 a = some av)
    (hws1 : ∀ c ∈ ws1, isSpace c = true ∧ c ≠ '\n')
    (hws2 : ∀ c ∈ ws2, isSpace c = true ∧ c ≠ '\n')
    (hrest : '\n' ∉ rest) (heol : eol = [] ∨ eol = ['\n'])
    (hlen : byteLen (ws1 ++ a ++ ws2 ++ ';' :: rest) < maxTokenSize)
    (hne : ips ≠ []) (hips : ∀ ip ∈ ips, (parseIPv4 ip).isSome = true) :
    ∃ t m, loadDump rangeIndexLib (.ok ⟨ws1 ++ a ++ ws2 ++ ';' :: rest ++ eol, none⟩) = .ok t ∧
      checkHandler rangeIndexLib decodeList t ips = ⟨200, RespBody.json m, ips⟩ ∧
      ∀ x ∈ ips, ∀ xv, parseIPv4 x = some xv → mapGet m x = some (decide (xv = av)) := by
  have hach := (parseIPv4_inv a av ha).2
  have hasp : ∀ c ∈ a, isSpace c = false := fun c hc =>
    entryChar_not_space c ((hach c hc).elim Or.inl (fun h => Or.inr (Or.inl h)))
  -- the first field holds no separator
  have hfirst : ∀ d : Char, isSpace d = false → (∀ c ∈ a, c ≠ d) → d ∉ ws1 ++ a ++ ws2 := by
    intro d hd had hm
    simp only [List.mem_append] at hm
    rcases hm with (hm | hm) | hm
    · exact space_ne d d (hws1 d hm).1 hd rfl
    · exact had d hm rfl
    · exact space_ne d d (hws2 d hm).1 hd rfl
  have hane : ∀ d : Char, d.isDigit = false → d ≠ '.' → ∀ c ∈ a, c ≠ d := by
    intro d hd1 hd2 c hc e
    subst e
    rcases hach c hc with h | h
    · rw [h] at hd1; cases hd1
    · exact hd2 h
  have hsemi : ';' ∉ ws1 ++ a ++ ws2 :=
    hfirst ';' (by decide) (hane ';' (by decide) (by decide))
  have hpipe : '|' ∉ ws1 ++ a ++ ws2 :=
    hfirst '|' (by decide) (hane '|' (by decide) (by decide))
  have hnl : '\n' ∉ ws1 ++ a ++ ws2 ++ ';' :: rest := by
    intro hm
    simp only [List.mem_append, List.mem_cons] at hm
    rcases hm with ((hm | hm) | hm) | hm | hm
    · exact (hws1 _ hm).2 rfl
    · exact hane '\n' (by decide) (by decide) _ hm rfl
    · exact (hws2 _ hm).2 rfl
    · exact absurd hm (by decide)
    · exact hrest hm
  have hraw : rawLines (ws1 ++ a ++ ws2 ++ ';' :: rest ++ eol) = [ws1 ++ a ++ ws2 ++ ';' :: rest] :=
    rawLines_single _ eol hnl (by simp) heol
  have hshort : ∀ l ∈ rawLines (ws1 ++ a ++ ws2 ++ ';' :: rest ++ eol), byteLen l < maxTokenSize := by
    intro l hl
    rw [hraw] at hl
    rw [List.mem_singleton.mp hl]
    exact hlen
  obtain ⟨r2, hr2⟩ := dropCR_append_sep (ws1 ++ a ++ ws2) rest
  have hentries : lineEntries (dropCR (ws1 ++ a ++ ws2 ++ ';' :: rest)) = [a] := by
    have h2 : 2 ≤ (split ';' ((ws1 ++ a ++ ws2) ++ ';' :: r2)).length := by
      rw [split_append_sep ';' _ r2 hsemi]
      have := List.length_pos.mpr (split_ne_nil ';' r2)
      simp only [List.length_cons]
      omega
    rw [hr2]
    unfold lineEntries
    rw [if_pos h2, split_append_sep ';' _ r2 hsemi]
    simp only [List.headD_cons, split_of_not_mem '|' _ hpipe, List.map_cons, List.map_nil]
    rw [trimSpace_surrounded ws1 a ws2 (fun c hc => (hws1 c hc).1) (fun c hc => (hws2 c hc).1) hasp]
  have hflat : (feedLines (ws1 ++ a ++ ws2 ++ ';' :: rest ++ eol)).flatMap lineEntries = [a] := by
    rw [feedLines, hraw]
    simp only [List.map_cons, List.map_nil, List.flatMap_cons, List.flatMap_nil, hentries,
      List.append_nil]
  obtain ⟨m, hm, hall⟩ :=
    checkHandler_loaded (feedLines (ws1 ++ a ++ ws2 ++ ';' :: rest ++ eol)) ips hne hips
  refine ⟨_, m, (loadDump_ok_iff rangeIndexLib _ _).mpr ⟨_, rfl, hshort, rfl⟩, hm, ?_⟩
  intro x hx xv hxv
  obtain ⟨flag, hg, hiff⟩ := hall x hx xv hxv
  rw [hg]
  congr 1
  rw [hflat] at hiff
  have hin : inBlock ⟨av, 32⟩ xv ↔ xv = av := by
    rw [inBlock_iff]
    simp
  have : flag = true ↔ xv = av := by
    rw [hiff]
    constructor
    · rintro ⟨e, he, b, hp, hb⟩
      rw [List.mem_singleton.mp he, parseEntry_of_address a av ha] at hp
      injection hp with hp
      subst hp
      exact hin.mp hb
    · intro h
      exact ⟨a, List.mem_singleton.mpr rfl, ⟨av, 32⟩, parseEntry_of_address a av ha, hin.mpr h⟩
  cases flag <;> simp_all

/-- Witness of C2: the feed line `1.2.3.0/24|5.6.7.8;reason` of the
specification gives 1.2.3.4 -> true, 5.6.7.8 -> true and 9.9.9.9 -> false, and
the feed line ` 5.6.7.8 ;reason` gives 5.6.7.8 -> true and 5.6.7.9 -> false. -/
theorem bare_address_is_single_host_witness :
    loadDump rangeIndexLib (.ok ⟨"1.2.3.0/24|5.6.7.8;reason".toList, none⟩)
      = .ok [((84281096, 32), Value.int 1), ((66051, 24), Value.int 1), ((0, 0), Value.int 0)] ∧
    checkHandler rangeIndexLib decodeList
        [((84281096, 32), Value.int 1), ((66051, 24), Value.int 1), ((0, 0), Value.int 0)]
        ["1.2.3.4".toList, "5.6.7.8".toList, "9.9.9.9".toList]
      = ⟨200, RespBody.json [("1.2.3.4".toList, true), ("5.6.7.8".toList, true),
          ("9.9.9.9".toList, false)], ["1.2.3.4".toList, "5.6.7.8".toList, "9.9.9.9".toList]⟩ ∧
    ∃ t m, loadDump rangeIndexLib
        (.ok ⟨" ".toList ++ "5.6.7.8".toList ++ " ".toList ++ ';' :: "reason".toList ++ ['\n'], none⟩)
        = .ok t ∧
      checkHandler rangeIndexLib decodeList t ["5.6.7.8".toList, "5.6.7.9".toList]
        = ⟨200, RespBody.json m, ["5.6.7.8".toList, "5.6.7.9".toList]⟩ ∧
      ∀ x ∈ ["5.6.7.8".toList, "5.6.7.9".toList], ∀ xv, parseIPv4 x = some xv →
        mapGet m x = some (decide (xv = 84281096)) :=
  ⟨rfl, by decide,
    bare_address_is_single_host "5.6.7.8".toList 84281096 " ".toList " ".toList "reason".toList
      ['\n'] ["5.6.7.8".toList, "5.6.7.9".toList] (by decide) (by decide) (by decide) (by decide)
      (Or.inr rfl) (by decide) (by decide) (by decide)⟩

/-! ## The limit of the scanner: lemmas -/

theorem byteLen_append (s t : Str) : byteLen (s ++ t) = byteLen s + byteLen t := by
  simp [byteLen]

theorem scanFrom_too_long (max : Nat) (e : Option Err) (ls : List Str)
    (h : ∃ l ∈ ls, max ≤ byteLen l) : (scanFrom max e ls).err = some ErrTooLong := by
  induction ls with
  | nil =>
    obtain ⟨l, hl, _⟩ := h
    cases hl
  | cons l rest ih =>
    by_cases h1 : max ≤ byteLen l
    · simp [scanFrom, h1]
    · simp only [scanFrom, h1, if_false]
      apply ih
      obtain ⟨x, hx, hlen⟩ := h
      rcases List.mem_cons.mp hx with hx | hx
      · subst hx; exact absurd hlen h1
      · exact ⟨x, hx, hlen⟩

/-- A line of letters ended by a carriage return and a newline is one line of
the scanner, and the carriage return counts in its length. -/
theorem crlf_line_too_long (n : Nat) (h : maxTokenSize ≤ n + 1) :
    ∃ l ∈ rawLines (List.replicate n 'a' ++ ['\r'] ++ ['\n']), maxTokenSize ≤ byteLen l := by
  have hmem : '\n' ∉ List.replicate n 'a' ++ ['\r'] := by
    intro hm
    rcases List.mem_append.mp hm with hm | hm
    · exact absurd (List.eq_of_mem_replicate hm) (by decide)
    · exact absurd (List.mem_singleton.mp hm) (by decide)
  have hraw := rawLines_single (List.replicate n 'a' ++ ['\r']) ['\n'] hmem (by simp)
    (Or.inr rfl)
  refine ⟨List.replicate n 'a' ++ ['\r'], ?_, ?_⟩
  · rw [hraw]
    exact List.mem_singleton.mpr rfl
  · rw [byteLen_append, byteLen_replicate_a]
    have h1 : byteLen ['\r'] = 1 := by decide
    rw [h1]
    exact h

/-! ## The limit of the scanner: the claim -/

/-- C9, as the code has it: for every file that is opened and read to its end
without an error, `loadDump` returns an index and no error, whatever the lines
hold, when every line is shorter than the limit of the scanner, 1048576 bytes,
and fails with `bufio.ErrTooLong` when some line has that many bytes or more.
A line is what stands between two newline characters: a carriage return before
the newline is counted in its length, the newline is not. The index returned is
the reference index of the lines. -/
theorem loadDump_line_limit {T : Type} (lib : IPTreeLib T) (data : Str) :
    ((∀ l ∈ rawLines data, byteLen l < maxTokenSize) →
      loadDump lib (.ok ⟨data, none⟩) = .ok (referenceIndex lib (feedLines data))) ∧
    ((∃ l ∈ rawLines data, maxTokenSize ≤ byteLen l) →
      loadDump lib (.ok ⟨data, none⟩) = .error ErrTooLong) := by
  constructor
  · intro h
    exact (loadDump_ok_iff lib _ _).mpr ⟨data, rfl, h, rfl⟩
  · intro h
    have herr := scanFrom_too_long maxTokenSize none (rawLines data) h
    simp only [loadDump, scanLines, herr]

/-- Witness of C9: a feed of an empty line, a malformed record and a block is
loaded, and a file of one line of 1048575 letters ended by a carriage return
and a newline is not. -/
theorem loadDump_line_limit_witness :
    loadDump rangeIndexLib (.ok ⟨"\n;;;\nbogus;x\n1.2.3.0/24;r".toList, none⟩)
      = .ok (referenceIndex rangeIndexLib (feedLines "\n;;;\nbogus;x\n1.2.3.0/24;r".toList)) ∧
    loadDump rangeIndexLib (.ok ⟨List.replicate 1048575 'a' ++ ['\r'] ++ ['\n'], none⟩)
      = .error ErrTooLong :=
  ⟨(loadDump_line_limit rangeIndexLib "\n;;;\nbogus;x\n1.2.3.0/24;r".toList).1 (by decide),
    (loadDump_line_limit rangeIndexLib (List.replicate 1048575 'a' ++ ['\r'] ++ ['\n'])).2
      (crlf_line_too_long 1048575 (Nat.le_refl _))⟩

/-- Counterexample to C9: a file of one line of 1048576 letters is opened and
read without an error, and `loadDump` fails on it with `bufio.ErrTooLong`. -/
theorem loadDump_fails_on_long_line :
    loadDump rangeIndexLib (.ok ⟨List.replicate 1048576 'a', none⟩) = .error ErrTooLong :=
  loadDump_long_line rangeIndexLib 1048576 (Nat.le_refl _)

/-! ## The start and the refresh: lemmas -/

theorem downloadDump_other_path (a : Attempt) (path other : Str) (fs : FS) (h : other ≠ path) :
    (downloadDump a path fs).1 other = fs other := by
  unfold downloadDump
  cases a.get with
  | error e => rfl
  | ok resp =>
    simp only
    cases hfs : fs path with
    | none =>
      simp only
      cases a.openErr with
      | some e => rfl
      | none =>
        simp only
        split_ifs
        · simp [FS.write, h]
        · cases a.copyErr with
          | none => simp [FS.write, h]
          | some ne => simp [FS.write, h]
    | some old =>
      simp only
      cases a.removeErr with
      | some e => rfl
      | none =>
        simp only
        cases a.openErr with
        | some e => simp [FS.remove, h]
        | none =>
          simp only
          split_ifs
          · simp [FS.write, FS.remove, h]
          · cases a.copyErr with
            | none => simp [FS.write, FS.remove, h]
            | some ne => simp [FS.write, FS.remove, h]

theorem retryTrace_cons (join : Str → Str → Str) (cfg : Config) (e : Err) (rest : List Err) :
    retryTrace join cfg (e :: rest) =
      Event.download cfg.dumpUrl (currentDump join cfg) cfg.dumpDownloadTimeout ::
        Event.logged e :: Event.sleep cfg.downloadRetryInterval :: retryTrace join cfg rest := by
  simp [retryTrace, List.flatMap_cons]

/-- The first loop from its iteration `k`, when the next `m` calls fail and the
one after them succeeds: it ends after these `m + 1` calls. -/
theorem initLoop_run (join : Str → Str → Str) (cfg : Config) (env : Nat → Attempt) (fs0 : FS)
    (m : Nat) : ∀ (k : Nat) (p : Proc) (fuel : Nat),
    p.fs = initFs join cfg env fs0 k →
    (∀ i, i < m → initOutcome join cfg env fs0 (k + i) ≠ none) →
    initOutcome join cfg env fs0 (k + m) = none →
    m + 1 ≤ fuel →
    ∃ errs : List Err, errs.length = m ∧
      ∃ q, initLoop join cfg env fuel k p = some q ∧
        q.fs = initFs join cfg env fs0 (k + m + 1) ∧
        q.trace = p.trace ++ retryTrace join cfg errs := by
  induction m with
  | zero =>
    intro k p fuel hfs _ hsucc hfuel
    obtain ⟨f, rfl⟩ : ∃ f, fuel = f + 1 := ⟨fuel - 1, by omega⟩
    have hs : (downloadDump (env k) (currentDump join cfg) p.fs).2 = none := by
      rw [hfs]; exact hsucc
    refine ⟨[], rfl, ⟨(downloadDump (env k) (currentDump join cfg) p.fs).1,
      p.trace ++ [Event.download cfg.dumpUrl (currentDump join cfg) cfg.dumpDownloadTimeout]⟩,
      ?_, ?_, ?_⟩
    · simp only [initLoop, hs]
    · simp only [Nat.add_zero, initFs, hfs]
    · simp [retryTrace]
  | succ m ih =>
    intro k p fuel hfs hfail hsucc hfuel
    obtain ⟨f, rfl⟩ : ∃ f, fuel = f + 1 := ⟨fuel - 1, by omega⟩
    have h0 := hfail 0 (Nat.succ_pos m)
    have hs : (downloadDump (env k) (currentDump join cfg) p.fs).2 ≠ none := by
      rw [hfs]; exact h0
    obtain ⟨e, he⟩ := Option.isSome_iff_exists.mp (Option.ne_none_iff_isSome.mp hs)
    obtain ⟨errs, hlen, q, hq, hqfs, hqtr⟩ := ih (k + 1)
      ⟨(downloadDump (env k) (currentDump join cfg) p.fs).1,
        p.trace ++ [Event.download cfg.dumpUrl (currentDump join cfg) cfg.dumpDownloadTimeout]
          ++ [Event.logged e, Event.sleep cfg.downloadRetryInterval]⟩ f
      (by simp only [initFs, hfs])
      (fun i hi => by
        have := hfail (i + 1) (Nat.succ_lt_succ hi)
        rwa [show k + (i + 1) = k + 1 + i by omega] at this)
      (by rwa [show k + (m + 1) = k + 1 + m by omega] at hsucc)
      (by omega)
    refine ⟨e :: errs, by simp [hlen], q, ?_, ?_, ?_⟩
    · simp only [initLoop, he]
      exact hq
    · rw [hqfs, show k + 1 + m + 1 = k + (m + 1) + 1 by omega]
    · rw [hqtr, retryTrace_cons]
      simp

/-- The first loop has not ended while all its calls so far have failed. -/
theorem initLoop_still_running (join : Str → Str → Str) (cfg : Config) (env : Nat → Attempt)
    (fs0 : FS) (fuel : Nat) : ∀ (k : Nat) (p : Proc),
    p.fs = initFs join cfg env fs0 k →
    (∀ i, i < fuel → initOutcome join cfg env fs0 (k + i) ≠ none) →
    initLoop join cfg env fuel k p = none := by
  induction fuel with
  | zero => intro k p _ _; rfl
  | succ f ih =>
    intro k p hfs hfail
    have h0 := hfail 0 (Nat.succ_pos f)
    have hs : (downloadDump (env k) (currentDump join cfg) p.fs).2 ≠ none := by
      rw [hfs]; exact h0
    obtain ⟨e, he⟩ := Option.isSome_iff_exists.mp (Option.ne_none_iff_isSome.mp hs)
    simp only [initLoop, he]
    apply ih
    · simp only [initFs, hfs]
    · intro i hi
      have := hfail (i + 1) (Nat.succ_lt_succ hi)
      rwa [show k + (i + 1) = k + 1 + i by omega] at this

theorem retryTrace_downloads (join : Str → Str → Str) (cfg : Config) (errs : List Err) :
    (retryTrace join cfg errs).filter Event.isDownload =
      List.replicate (errs.length + 1)
        (Event.download cfg.dumpUrl (currentDump join cfg) cfg.dumpDownloadTimeout) := by
  induction errs with
  | nil => rfl
  | cons e rest ih =>
    rw [retryTrace_cons]
    simp only [List.filter_cons, Event.isDownload, if_true, ih, List.length_cons]
    simp [List.replicate_succ]

theorem retryTrace_sleeps (join : Str → Str → Str) (cfg : Config) (errs : List Err) :
    (retryTrace join cfg errs).filter Event.isSleep =
      List.replicate errs.length (Event.sleep cfg.downloadRetryInterval) := by
  induction errs with
  | nil => rfl
  | cons e rest ih =>
    rw [retryTrace_cons]
    simp only [List.filter_cons, Event.isSleep, if_true, ih, List.length_cons]
    simp [List.replicate_succ]

theorem retryTrace_loads (join : Str → Str → Str) (cfg : Config) (errs : List Err) :
    (retryTrace join cfg errs).filter Event.isLoad = [] := by
  induction errs with
  | nil => rfl
  | cons e rest ih =>
    rw [retryTrace_cons]
    simp only [List.filter_cons, Event.isLoad, ih]
    simp

/-! ## The start and the refresh: the claims -/

/-- C7: when the first `n` calls of `downloadDump` fail and the next one
succeeds, the first loop of `RknChecker` ends, whatever `n` is: its effects are
`n` times a call of `downloadDump` on `dump.current` followed by the wait of the
retry interval, then one more call on `dump.current`, so `n + 1` calls and `n`
waits. Only then `loadDump` is called, once, on `dump.current` as the last call
of `downloadDump` left it: the index it returns is the snapshot served, and its
error ends the process. The loop has not ended, nor given up, within `n`
iterations. -/
theorem initial_load_retries_until_success {T : Type} (join : Str → Str → Str)
    (lib : IPTreeLib T) (cfg : Config) (env : Nat → Attempt) (ld : LoadEnv) (fs0 : FS)
    (n fuel : Nat)
    (hfail : ∀ i, i < n → initOutcome join cfg env fs0 i ≠ none)
    (hsucc : initOutcome join cfg env fs0 n = none)
    (hfuel : n + 1 ≤ fuel) :
    (∃ errs : List Err, errs.length = n ∧
      ∃ q, initLoop join cfg env fuel 0 ⟨fs0, []⟩ = some q ∧
        q.trace = retryTrace join cfg errs ∧
        q.trace.filter Event.isDownload = List.replicate (n + 1)
          (Event.download cfg.dumpUrl (currentDump join cfg) cfg.dumpDownloadTimeout) ∧
        q.trace.filter Event.isSleep = List.replicate n (Event.sleep cfg.downloadRetryInterval) ∧
        (∃ st : Started T, rknCheckerInit join lib cfg env ld fuel ⟨fs0, []⟩ = some st ∧
          (∃ tail, st.proc.trace = q.trace ++ Event.load (currentDump join cfg) :: tail) ∧
          st.proc.trace.filter Event.isLoad = [Event.load (currentDump join cfg)]) ∧
        q.fs = initFs join cfg env fs0 (n + 1) ∧
        (∀ db, loadDump lib (osOpen q.fs ld (currentDump join cfg)) = .ok db →
          rknCheckerInit join lib cfg env ld fuel ⟨fs0, []⟩
            = some (.serving db ⟨q.fs, q.trace ++ [Event.load (currentDump join cfg)]⟩)) ∧
        (∀ e, loadDump lib (osOpen q.fs ld (currentDump join cfg)) = .error e →
          rknCheckerInit join lib cfg env ld fuel ⟨fs0, []⟩
            = some (.fatal ⟨q.fs, q.trace ++
                [Event.load (currentDump join cfg), Event.logged e, Event.fatal]⟩))) ∧
    ∀ fewer, fewer ≤ n → initLoop join cfg env fewer 0 ⟨fs0, []⟩ = none := by
  constructor
  · obtain ⟨errs, hlen, q, hq, hqfs, hqtr⟩ := initLoop_run join cfg env fs0 n 0 ⟨fs0, []⟩ fuel rfl
      (fun i hi => by simpa using hfail i hi) (by simpa using hsucc) hfuel
    have htr : q.trace = retryTrace join cfg errs := by simpa using hqtr
    refine ⟨errs, hlen, q, hq, htr, ?_, ?_, ?_, ?_, ?_, ?_⟩
    · rw [htr, retryTrace_downloads, hlen]
    · rw [htr, retryTrace_sleeps, hlen]
    · cases hl : loadDump lib (osOpen q.fs ld (currentDump join cfg)) with
      | error e =>
        refine ⟨.fatal ⟨q.fs, q.trace ++ [Event.load (currentDump join cfg)]
          ++ [Event.logged e, Event.fatal]⟩, ?_, ⟨[Event.logged e, Event.fatal], ?_⟩, ?_⟩
        · simp only [rknCheckerInit, hq, hl]
        · simp [Started.proc]
        · simp only [Started.proc, List.filter_append, htr, retryTrace_loads]
          rfl
      | ok db =>
        refine ⟨.serving db ⟨q.fs, q.trace ++ [Event.load (currentDump join cfg)]⟩, ?_,
          ⟨[], ?_⟩, ?_⟩
        · simp only [rknCheckerInit, hq, hl]
        · simp [Started.proc]
        · simp only [Started.proc, List.filter_append, htr, retryTrace_loads]
          rfl
    · simpa using hqfs
    · intro db hl
      simp only [rknCheckerInit, hq, hl]
    · intro e hl
      simp only [rknCheckerInit, hq, hl, List.append_assoc, List.cons_append, List.nil_append]
  · intro fewer hle
    exact initLoop_still_running join cfg env fs0 fewer 0 ⟨fs0, []⟩ rfl
      (fun i hi => by simpa using hfail i (Nat.lt_of_lt_of_le hi hle))

/-- Witness of C7: the network fails three times and then answers with the
feed `1.2.3.0/24;reason`; the start ends serving the index of that feed, after
four calls of `downloadDump`, three waits and one call of `loadDump`. -/
theorem initial_load_retries_until_success_witness :
    (∃ p, rknCheckerInit joinSimple rangeIndexLib exampleConfig
        (fun k => if k < 3 then badAttempt else goodAttempt "1.2.3.0/24;reason".toList)
        quietLoad 4 ⟨emptyFS, []⟩
        = some (.serving [((66051, 24), Value.int 1), ((0, 0), Value.int 0)] p) ∧
      p.trace = retryTrace joinSimple exampleConfig ["timeout", "timeout", "timeout"]
        ++ [Event.load (currentDump joinSimple exampleConfig)] ∧
      p.fs (currentDump joinSimple exampleConfig) = some "1.2.3.0/24;reason".toList) ∧
    ((∃ errs : List Err, errs.length = 3 ∧
      ∃ q, initLoop joinSimple exampleConfig
          (fun k => if k < 3 then badAttempt else goodAttempt "1.2.3.0/24;reason".toList)
          4 0 ⟨emptyFS, []⟩ = some q ∧
        q.trace = retryTrace joinSimple exampleConfig errs ∧
        q.trace.filter Event.isDownload = List.replicate (3 + 1)
          (Event.download exampleConfig.dumpUrl (currentDump joinSimple exampleConfig)
            exampleConfig.dumpDownloadTimeout) ∧
        q.trace.filter Event.isSleep
          = List.replicate 3 (Event.sleep exampleConfig.downloadRetryInterval) ∧
        (∃ st : Started RangeIndex, rknCheckerInit joinSimple rangeIndexLib exampleConfig
            (fun k => if k < 3 then badAttempt else goodAttempt "1.2.3.0/24;reason".toList)
            quietLoad 4 ⟨emptyFS, []⟩ = some st ∧
          (∃ tail, st.proc.trace
            = q.trace ++ Event.load (currentDump joinSimple exampleConfig) :: tail) ∧
          st.proc.trace.filter Event.isLoad
            = [Event.load (currentDump joinSimple exampleConfig)]) ∧
        q.fs = initFs joinSimple exampleConfig
          (fun k => if k < 3 then badAttempt else goodAttempt "1.2.3.0/24;reason".toList)
          emptyFS (3 + 1) ∧
        (∀ db, loadDump rangeIndexLib
            (osOpen q.fs quietLoad (currentDump joinSimple exampleConfig)) = .ok db →
          rknCheckerInit joinSimple rangeIndexLib exampleConfig
            (fun k => if k < 3 then badAttempt else goodAttempt "1.2.3.0/24;reason".toList)
            quietLoad 4 ⟨emptyFS, []⟩
            = some (.serving db
                ⟨q.fs, q.trace ++ [Event.load (currentDump joinSimple exampleConfig)]⟩)) ∧
        (∀ e, loadDump rangeIndexLib
            (osOpen q.fs quietLoad (currentDump joinSimple exampleConfig)) = .error e →
          rknCheckerInit joinSimple rangeIndexLib exampleConfig
            (fun k => if k < 3 then badAttempt else goodAttempt "1.2.3.0/24;reason".toList)
            quietLoad 4 ⟨emptyFS, []⟩
            = some (.fatal ⟨q.fs, q.trace ++
                [Event.load (currentDump joinSimple exampleConfig), Event.logged e,
                  Event.fatal]⟩))) ∧
    ∀ fewer, fewer ≤ 3 → initLoop joinSimple exampleConfig
      (fun k => if k < 3 then badAttempt else goodAttempt "1.2.3.0/24;reason".toList)
      fewer 0 ⟨emptyFS, []⟩ = none) :=
  ⟨⟨_, rfl, rfl, rfl⟩,
    initial_load_retries_until_success joinSimple rangeIndexLib exampleConfig
      (fun k => if k < 3 then badAttempt else goodAttempt "1.2.3.0/24;reason".toList)
      quietLoad emptyFS 3 4
      (by
        intro i hi
        have h : i = 0 ∨ i = 1 ∨ i = 2 := by omega
        rcases h with h | h | h <;> subst h <;> simp [initOutcome, downloadDump, badAttempt])
      (by
        simp [initOutcome, downloadDump, goodAttempt, badAttempt, initFs, emptyFS, FS.write])
      (Nat.le_refl _)⟩

/-- C6: in a refresh cycle in which `downloadDump` of the fresh file fails, or
`loadDump` of the fresh file fails, the served snapshot `db` stays what it was,
the file `dump.current` stays what it was, the cycle takes no lock, installs
nothing and renames nothing, and the handler answers every request after the
cycle as before it. -/
theorem failed_cycle_keeps_snapshot {T Body : Type} (join : Str → Str → Str)
    (lib : IPTreeLib T) (cfg : Config) (env : CycleEnv) (s : Service T)
    (decode : Body → Except Err (List Str))
    (hpaths : currentDump join cfg ≠ freshDump join cfg)
    (hfail : (downloadDump env.attempt (freshDump join cfg) s.fs).2 ≠ none ∨
      ∃ e, loadDump lib (osOpen (downloadDump env.attempt (freshDump join cfg) s.fs).1 env.load
        (freshDump join cfg)) = .error e) :
    (refreshCycle join lib cfg env s).db = s.db ∧
    (refreshCycle join lib cfg env s).fs (currentDump join cfg) = s.fs (currentDump join cfg) ∧
    (∃ evs, (refreshCycle join lib cfg env s).trace = s.trace ++ evs ∧
      Event.lock ∉ evs ∧ Event.install ∉ evs ∧ ∀ src dst, Event.rename src dst ∉ evs) ∧
    ∀ body, checkHandler lib decode (refreshCycle join lib cfg env s).db body
      = checkHandler lib decode s.db body := by
  have hfs := downloadDump_other_path env.attempt (freshDump join cfg) (currentDump join cfg)
    s.fs hpaths
  have key : (refreshCycle join lib cfg env s).db = s.db ∧
      (refreshCycle join lib cfg env s).fs (currentDump join cfg) = s.fs (currentDump join cfg) ∧
      (∃ evs, (refreshCycle join lib cfg env s).trace = s.trace ++ evs ∧
        Event.lock ∉ evs ∧ Event.install ∉ evs ∧ ∀ src dst, Event.rename src dst ∉ evs) := by
    cases hd : (downloadDump env.attempt (freshDump join cfg) s.fs).2 with
    | some e =>
      refine ⟨?_, ?_, ⟨[Event.logged "updating db",
        Event.download cfg.dumpUrl (freshDump join cfg) cfg.dumpDownloadTimeout,
        Event.logged e], ?_, ?_, ?_, ?_⟩⟩
      · simp only [refreshCycle, hd]
      · simp only [refreshCycle, hd]; exact hfs
      · simp only [refreshCycle, hd, List.append_assoc, List.cons_append, List.nil_append]
      · simp
      · simp
      · simp
    | none =>
      rcases hfail with h | ⟨e, he⟩
      · exact absurd hd h
      · refine ⟨?_, ?_, ⟨[Event.logged "updating db",
          Event.download cfg.dumpUrl (freshDump join cfg) cfg.dumpDownloadTimeout,
          Event.load (freshDump join cfg), Event.logged e], ?_, ?_, ?_, ?_⟩⟩
        · simp only [refreshCycle, hd, he]
        · simp only [refreshCycle, hd, he]; exact hfs
        · simp only [refreshCycle, hd, he, List.append_assoc, List.cons_append, List.nil_append]
        · simp
        · simp
        · simp
  refine ⟨key.1, key.2.1, key.2.2, ?_⟩
  intro body
  rw [key.1]

/-- Witness of C6: a cycle whose fetch fails, on a service with a snapshot and
a current file. -/
theorem failed_cycle_keeps_snapshot_witness :
    (refreshCycle joinSimple rangeIndexLib exampleConfig ⟨badAttempt, quietLoad, none⟩
      ⟨[((66051, 24), Value.int 1), ((0, 0), Value.int 0)],
        emptyFS.write (currentDump joinSimple exampleConfig) "1.2.3.0/24;reason".toList, []⟩).db
      = [((66051, 24), Value.int 1), ((0, 0), Value.int 0)] ∧
    (refreshCycle joinSimple rangeIndexLib exampleConfig ⟨badAttempt, quietLoad, none⟩
      ⟨[((66051, 24), Value.int 1), ((0, 0), Value.int 0)],
        emptyFS.write (currentDump joinSimple exampleConfig) "1.2.3.0/24;reason".toList, []⟩).fs
        (currentDump joinSimple exampleConfig)
      = (emptyFS.write (currentDump joinSimple exampleConfig) "1.2.3.0/24;reason".toList)
        (currentDump joinSimple exampleConfig) ∧
    (∃ evs, (refreshCycle joinSimple rangeIndexLib exampleConfig ⟨badAttempt, quietLoad, none⟩
      ⟨[((66051, 24), Value.int 1), ((0, 0), Value.int 0)],
        emptyFS.write (currentDump joinSimple exampleConfig) "1.2.3.0/24;reason".toList,
        []⟩).trace = [] ++ evs ∧
      Event.lock ∉ evs ∧ Event.install ∉ evs ∧ ∀ src dst, Event.rename src dst ∉ evs) ∧
    ∀ body, checkHandler rangeIndexLib decodeList
        (refreshCycle joinSimple rangeIndexLib exampleConfig ⟨badAttempt, quietLoad, none⟩
          ⟨[((66051, 24), Value.int 1), ((0, 0), Value.int 0)],
            emptyFS.write (currentDump joinSimple exampleConfig) "1.2.3.0/24;reason".toList,
            []⟩).db body
      = checkHandler rangeIndexLib decodeList
          [((66051, 24), Value.int 1), ((0, 0), Value.int 0)] body :=
  failed_cycle_keeps_snapshot joinSimple rangeIndexLib exampleConfig ⟨badAttempt, quietLoad, none⟩
    ⟨[((66051, 24), Value.int 1), ((0, 0), Value.int 0)],
      emptyFS.write (currentDump joinSimple exampleConfig) "1.2.3.0/24;reason".toList, []⟩
    decodeList (by decide) (Or.inl (by simp [downloadDump, badAttempt]))

/-- C10, as the code has it: in every refresh cycle in which the fetch and the
parse succeed, the effects occur in this order: the guard is acquired, the
served snapshot is replaced by the new index, the fresh file is renamed over
the current file while the guard is still held, and then the guard is released;
the snapshot served after the cycle is the new index, also when the rename
fails. -/
theorem successful_cycle_order {T : Type} (join : Str → Str → Str) (lib : IPTreeLib T)
    (cfg : Config) (env : CycleEnv) (s : Service T) (newDb : T)
    (hfetch : (downloadDump env.attempt (freshDump join cfg) s.fs).2 = none)
    (hparse : loadDump lib (osOpen (downloadDump env.attempt (freshDump join cfg) s.fs).1 env.load
      (freshDump join cfg)) = .ok newDb) :
    (refreshCycle join lib cfg env s).db = newDb ∧
    ∃ renameLog, (renameLog = [] ∨ ∃ e, renameLog = [Event.logged e]) ∧
      (renameLog = [] ↔ ∃ fs2, osRename (downloadDump env.attempt (freshDump join cfg) s.fs).1
        env.renameErr (freshDump join cfg) (currentDump join cfg) = .ok fs2) ∧
      (refreshCycle join lib cfg env s).trace = s.trace ++
        [Event.logged "updating db",
         Event.download cfg.dumpUrl (freshDump join cfg) cfg.dumpDownloadTimeout,
         Event.load (freshDump join cfg),
         Event.lock, Event.install, Event.rename (freshDump join cfg) (currentDump join cfg)]
        ++ renameLog ++ [Event.logged "db updated", Event.unlock] := by
  cases hr : osRename (downloadDump env.attempt (freshDump join cfg) s.fs).1
      env.renameErr (freshDump join cfg) (currentDump join cfg) with
  | error e =>
    refine ⟨?_, [Event.logged e], Or.inr ⟨e, rfl⟩, ?_, ?_⟩
    · simp only [refreshCycle, hfetch, hparse, hr]
    · simp
    · simp only [refreshCycle, hfetch, hparse, hr, List.append_assoc, List.cons_append,
        List.nil_append]
  | ok fs2 =>
    refine ⟨?_, [], Or.inl rfl, ?_, ?_⟩
    · simp only [refreshCycle, hfetch, hparse, hr]
    · simp
    · simp only [refreshCycle, hfetch, hparse, hr, List.append_assoc, List.cons_append,
        List.nil_append, List.append_nil]

/-- Witness of C10 as amended: a cycle that fetches and parses a feed of one
block, and whose rename fails. -/
theorem successful_cycle_order_witness :
    (refreshCycle joinSimple rangeIndexLib exampleConfig
      ⟨goodAttempt "1.2.3.0/24;reason".toList, quietLoad, some "rename failed"⟩
      ⟨[((0, 0), Value.int 0)], emptyFS, []⟩).db
      = [((66051, 24), Value.int 1), ((0, 0), Value.int 0)] ∧
    ∃ renameLog, (renameLog = [] ∨ ∃ e, renameLog = [Event.logged e]) ∧
      (renameLog = [] ↔ ∃ fs2, osRename
        (downloadDump (goodAttempt "1.2.3.0/24;reason".toList)
          (freshDump joinSimple exampleConfig) emptyFS).1
        (some "rename failed") (freshDump joinSimple exampleConfig)
        (currentDump joinSimple exampleConfig) = .ok fs2) ∧
      (refreshCycle joinSimple rangeIndexLib exampleConfig
        ⟨goodAttempt "1.2.3.0/24;reason".toList, quietLoad, some "rename failed"⟩
        ⟨[((0, 0), Value.int 0)], emptyFS, []⟩).trace = [] ++
        [Event.logged "updating db",
         Event.download exampleConfig.dumpUrl (freshDump joinSimple exampleConfig)
           exampleConfig.dumpDownloadTimeout,
         Event.load (freshDump joinSimple exampleConfig),
         Event.lock, Event.install,
         Event.rename (freshDump joinSimple exampleConfig) (currentDump joinSimple exampleConfig)]
        ++ renameLog ++ [Event.logged "db updated", Event.unlock] :=
  successful_cycle_order joinSimple rangeIndexLib exampleConfig
    ⟨goodAttempt "1.2.3.0/24;reason".toList, quietLoad, some "rename failed"⟩
    ⟨[((0, 0), Value.int 0)], emptyFS, []⟩
    [((66051, 24), Value.int 1), ((0, 0), Value.int 0)] rfl rfl

/-- Counterexample to C10: in a cycle whose fetch and parse succeed, the guard
is not released before the rename: the release does not occur before the
rename in the effects of the cycle, and the rename occurs before the release,
inside the critical section. -/
theorem rename_inside_critical_section :
    cycleSucceeds joinSimple rangeIndexLib exampleConfig
      ⟨goodAttempt "1.2.3.0/24;reason".toList, quietLoad, none⟩
      ⟨[((0, 0), Value.int 0)], emptyFS, []⟩ ∧
    ¬ occursBefore Event.unlock
      (Event.rename (freshDump joinSimple exampleConfig) (currentDump joinSimple exampleConfig))
      (refreshCycle joinSimple rangeIndexLib exampleConfig
        ⟨goodAttempt "1.2.3.0/24;reason".toList, quietLoad, none⟩
        ⟨[((0, 0), Value.int 0)], emptyFS, []⟩).trace ∧
    occursBefore
      (Event.rename (freshDump joinSimple exampleConfig) (currentDump joinSimple exampleConfig))
      Event.unlock
      (refreshCycle joinSimple rangeIndexLib exampleConfig
        ⟨goodAttempt "1.2.3.0/24;reason".toList, quietLoad, none⟩
        ⟨[((0, 0), Value.int 0)], emptyFS, []⟩).trace :=
  ⟨⟨rfl, [((66051, 24), Value.int 1), ((0, 0), Value.int 0)], rfl⟩, by decide, by decide⟩

end CheckRkn
